import Mathlib

/-!
Verification of the xBrowserSync-style bookmark reconciliation engine.

The definitions below are a shallow embedding of the WebExt bookmark service
(`src/unnamed/part_000`, TypeScript class WebExtBookmarkService) and of the
listener-toggling logic of the Chrome background script
(`src/platform/chrome/js/background.js`).  Promise chains are sequentialised;
fallible steps return `Except Exc`; the persisted id-mapping table and the
user settings are threaded through an explicit `Env` value.  Helper services
whose sources are not part of this repository snapshot (BookmarkHelperService,
BookmarkIdMapperService, the Globals constants) are modelled from the spec;
each such definition carries a doc comment saying so.
-/

/-- Exceptions thrown by the service (shared/exception/exception). -/
inductive Exc where
  | bookmarkNotFound
  | nativeBookmarkNotFound
  | containerNotFound
  | containerChanged
  | failedCreateNativeBookmarks
  | failedUpdateNativeBookmarks
  | ambiguousSyncRequest
  /-- A JavaScript runtime TypeError, raised when the source dereferences
  an `undefined` value (for example `idMapping.syncedId` on a missing mapping). -/
  | typeError
  deriving DecidableEq

/-- Canonical bookmark: integer id, title, optional url (absent means folder
or separator), optional description, ordered children. -/
inductive Bookmark where
  | node (id : Nat) (title : String) (url : Option String)
      (description : Option String) (children : List Bookmark)

mutual

def Bookmark.decEqT : (a b : Bookmark) → Decidable (a = b)
  | .node i1 t1 u1 d1 c1, .node i2 t2 u2 d2 c2 =>
    have : Decidable (c1 = c2) := Bookmark.decEqL c1 c2
    decidable_of_iff (i1 = i2 ∧ t1 = t2 ∧ u1 = u2 ∧ d1 = d2 ∧ c1 = c2)
      (by
        constructor
        · rintro ⟨h1, h2, h3, h4, h5⟩
          rw [h1, h2, h3, h4, h5]
        · intro h
          injection h with h1 h2 h3 h4 h5
          exact ⟨h1, h2, h3, h4, h5⟩)

def Bookmark.decEqL : (as bs : List Bookmark) → Decidable (as = bs)
  | [], [] => isTrue rfl
  | [], _ :: _ => isFalse (by intro h; cases h)
  | _ :: _, [] => isFalse (by intro h; cases h)
  | a :: as, b :: bs =>
    have : Decidable (a = b) := Bookmark.decEqT a b
    have : Decidable (as = bs) := Bookmark.decEqL as bs
    decidable_of_iff (a = b ∧ as = bs)
      (by
        constructor
        · rintro ⟨h1, h2⟩
          rw [h1, h2]
        · intro h
          injection h with h1 h2
          exact ⟨h1, h2⟩)

end

instance : DecidableEq Bookmark := Bookmark.decEqT

def Bookmark.id : Bookmark → Nat
  | .node i _ _ _ _ => i

def Bookmark.title : Bookmark → String
  | .node _ t _ _ _ => t

def Bookmark.url : Bookmark → Option String
  | .node _ _ u _ _ => u

def Bookmark.description : Bookmark → Option String
  | .node _ _ _ d _ => d

def Bookmark.children : Bookmark → List Bookmark
  | .node _ _ _ _ ch => ch

/-- Replace the children of a node, keeping every other field. -/
def Bookmark.setChildren : Bookmark → List Bookmark → Bookmark
  | .node i t u d _, ch => .node i t u d ch

/-- Replace the id of a node, keeping every other field (models the in-place
assignment `addBookmarkResult.bookmark.id = bookmarkToRemove.id`). -/
def Bookmark.setId : Bookmark → Nat → Bookmark
  | .node _ t u d ch, i => .node i t u d ch

@[simp] theorem Bookmark.id_node (i : Nat) (t : String) (u d : Option String)
    (ch : List Bookmark) : (Bookmark.node i t u d ch).id = i := rfl

@[simp] theorem Bookmark.title_node (i : Nat) (t : String) (u d : Option String)
    (ch : List Bookmark) : (Bookmark.node i t u d ch).title = t := rfl

@[simp] theorem Bookmark.children_node (i : Nat) (t : String) (u d : Option String)
    (ch : List Bookmark) : (Bookmark.node i t u d ch).children = ch := rfl

@[simp] theorem Bookmark.setChildren_id (b : Bookmark) (ch : List Bookmark) :
    (b.setChildren ch).id = b.id := by cases b; rfl

@[simp] theorem Bookmark.setChildren_children (b : Bookmark) (ch : List Bookmark) :
    (b.setChildren ch).children = ch := by cases b; rfl

@[simp] theorem Bookmark.setChildren_title (b : Bookmark) (ch : List Bookmark) :
    (b.setChildren ch).title = b.title := by cases b; rfl

theorem Bookmark.setChildren_self (b : Bookmark) : b.setChildren b.children = b := by
  cases b; rfl

/-- Native bookmark node (webextension-polyfill BookmarkTreeNode):
host-assigned string id, parentId, index among siblings, title, optional url,
ordered children. -/
inductive NativeBookmarkNode where
  | node (id parentId : String) (index : Nat) (title : String)
      (url : Option String) (children : List NativeBookmarkNode)

mutual

def NativeBookmarkNode.decEqT : (a b : NativeBookmarkNode) → Decidable (a = b)
  | .node i1 p1 n1 t1 u1 c1, .node i2 p2 n2 t2 u2 c2 =>
    have : Decidable (c1 = c2) := NativeBookmarkNode.decEqL c1 c2
    decidable_of_iff (i1 = i2 ∧ p1 = p2 ∧ n1 = n2 ∧ t1 = t2 ∧ u1 = u2 ∧ c1 = c2)
      (by
        constructor
        · rintro ⟨h1, h2, h3, h4, h5, h6⟩
          rw [h1, h2, h3, h4, h5, h6]
        · intro h
          injection h with h1 h2 h3 h4 h5 h6
          exact ⟨h1, h2, h3, h4, h5, h6⟩)

def NativeBookmarkNode.decEqL : (as bs : List NativeBookmarkNode) → Decidable (as = bs)
  | [], [] => isTrue rfl
  | [], _ :: _ => isFalse (by intro h; cases h)
  | _ :: _, [] => isFalse (by intro h; cases h)
  | a :: as, b :: bs =>
    have : Decidable (a = b) := NativeBookmarkNode.decEqT a b
    have : Decidable (as = bs) := NativeBookmarkNode.decEqL as bs
    decidable_of_iff (a = b ∧ as = bs)
      (by
        constructor
        · rintro ⟨h1, h2⟩
          rw [h1, h2]
        · intro h
          injection h with h1 h2
          exact ⟨h1, h2⟩)

end

instance : DecidableEq NativeBookmarkNode := NativeBookmarkNode.decEqT

def NativeBookmarkNode.id : NativeBookmarkNode → String
  | .node i _ _ _ _ _ => i

def NativeBookmarkNode.parentId : NativeBookmarkNode → String
  | .node _ p _ _ _ _ => p

def NativeBookmarkNode.index : NativeBookmarkNode → Nat
  | .node _ _ n _ _ _ => n

def NativeBookmarkNode.title : NativeBookmarkNode → String
  | .node _ _ _ t _ _ => t

def NativeBookmarkNode.url : NativeBookmarkNode → Option String
  | .node _ _ _ _ u _ => u

def NativeBookmarkNode.children : NativeBookmarkNode → List NativeBookmarkNode
  | .node _ _ _ _ _ ch => ch

/-- Id mapping record: `{syncedId, nativeId}` (bookmark-id-mapper). -/
structure IdMapping where
  syncedId : Nat
  nativeId : String
  deriving DecidableEq

/-- Metadata of a bookmark (shared/bookmark BookmarkMetadata; tags omitted,
they play no role in the claims below). -/
structure BookmarkMetadata where
  title : String
  url : Option String
  description : Option String
  isSeparator : Bool
  deriving DecidableEq

/-- Result of `addBookmark`: the created bookmark plus the replacement tree. -/
structure UpdateBookmarksResult where
  bookmark : Bookmark
  bookmarks : List Bookmark
  deriving DecidableEq

/- Reserved container titles (BookmarkContainer enum, shared/bookmark.enum;
the enum source is not part of this snapshot).  Modelled from the spec: the
four reserved names, pairwise distinct. -/

def menuContainerTitle : String := "[xbs] Menu"
def mobileContainerTitle : String := "[xbs] Mobile"
def otherContainerTitle : String := "[xbs] Other"
def toolbarContainerTitle : String := "[xbs] Toolbar"

/- Separator titles (Globals.Bookmarks, shared/global-shared.constants; source
not in this snapshot).  Modelled from the spec: two reserved strings, one for
each orientation, distinct from each other. -/

def horizontalSeparatorTitle : String := "[xbs] h-separator"
def verticalSeparatorTitle : String := "[xbs] v-separator"

mutual

/-- All ids of a single canonical subtree, in depth-first preorder. -/
def allTreeIds : Bookmark → List Nat
  | .node i _ _ _ ch => i :: allIdsList ch

/-- All ids of a canonical forest, in depth-first preorder. -/
def allIdsList : List Bookmark → List Nat
  | [] => []
  | b :: bs => allTreeIds b ++ allIdsList bs

end

mutual

/-- Number of nodes of a subtree. -/
def countTree : Bookmark → Nat
  | .node _ _ _ _ ch => 1 + countList ch

/-- Number of nodes of a forest. -/
def countList : List Bookmark → Nat
  | [] => 0
  | b :: bs => countTree b + countList bs

end

mutual

/-- Modelled from the spec: BookmarkHelperService.findBookmarkById searches
the canonical tree depth-first for the bookmark with the given id. -/
def findBookmarkById (id : Nat) : List Bookmark → Option Bookmark
  | [] => none
  | b :: bs =>
    match findBookmarkByIdTree id b with
    | some r => some r
    | none => findBookmarkById id bs

/-- Search a single subtree for the bookmark with the given id. -/
def findBookmarkByIdTree (id : Nat) : Bookmark → Option Bookmark
  | .node i t u d ch =>
    if i = id then some (.node i t u d ch) else findBookmarkById id ch

end

mutual

/-- Apply `f` to the first node (depth-first) whose id is `id`; the Bool of
the result records whether a node was hit.  This models the in-place mutation
of a node found by id in a JavaScript tree of unique-id nodes. -/
def modifyFirstL (id : Nat) (f : Bookmark → Bookmark) :
    List Bookmark → List Bookmark × Bool
  | [] => ([], false)
  | b :: bs =>
    let rb := modifyFirstT id f b
    if rb.2 then (rb.1 :: bs, true)
    else
      let rbs := modifyFirstL id f bs
      (rb.1 :: rbs.1, rbs.2)

def modifyFirstT (id : Nat) (f : Bookmark → Bookmark) : Bookmark → Bookmark × Bool
  | .node i t u d ch =>
    if i = id then (f (.node i t u d ch), true)
    else
      let rch := modifyFirstL id f ch
      (.node i t u d rch.1, rch.2)

end

/-- JavaScript `children.splice(index, 0, a)`: insert `a` at position `index`,
clamping to the end of the list when `index` exceeds the length. -/
def spliceIn (n : Nat) (a : α) : List α → List α
  | [] => [a]
  | x :: xs =>
    match n with
    | 0 => a :: x :: xs
    | m + 1 => x :: spliceIn m a xs


instance {ε α : Type} [DecidableEq ε] [DecidableEq α] : DecidableEq (Except ε α) :=
  fun a b =>
  match a, b with
  | .error x, .error y =>
    decidable_of_iff (x = y) ⟨fun h => by rw [h], fun h => by injection h⟩
  | .error _, .ok _ => isFalse (by intro h; cases h)
  | .ok _, .error _ => isFalse (by intro h; cases h)
  | .ok x, .ok y =>
    decidable_of_iff (x = y) ⟨fun h => by rw [h], fun h => by injection h⟩

/-- Details passed to `browser.bookmarks.create`. -/
structure CreateDetails where
  index : Option Nat
  parentId : String
  title : String
  url : Option String
  deriving DecidableEq

/-- Changes passed to `browser.bookmarks.update` (NativeBookmarks.UpdateChangesType). -/
structure UpdateChangesType where
  title : Option String
  url : Option String
  deriving DecidableEq

/-- The external collaborators of the service, frozen for one reconciliation
step: the persisted settings and id-mapping table, the platform container-id
table produced by `getNativeContainerIds`, the native bookmark tree consulted
through `browser.bookmarks.get` and `getSubTree`, and the platform url
predicate.  `hostCreate` and `hostUpdate` describe how the underlying
`browser.bookmarks.create` and `update` calls respond (`none` models a
rejected promise). -/
structure Env where
  syncBookmarksToolbar : Bool
  nativeContainerIds : List (String × String)
  mappings : List IdMapping
  nativeRoots : List NativeBookmarkNode
  urlIsSupported : String → Bool
  newTabUrl : String
  hostCreate : CreateDetails → Option NativeBookmarkNode
  hostUpdate : String → UpdateChangesType → Option NativeBookmarkNode

/-- The same environment with the toolbar-sync preference replaced. -/
def Env.withToolbarFlag (env : Env) (b : Bool) : Env :=
  ⟨b, env.nativeContainerIds, env.mappings, env.nativeRoots,
    env.urlIsSupported, env.newTabUrl, env.hostCreate, env.hostUpdate⟩

/-- `nativeContainerIds[name]` of the platform container-id table. -/
def containerIdLookup (env : Env) (name : String) : Option String :=
  (env.nativeContainerIds.find? (fun p => p.1 = name)).map (fun p => p.2)

/-- Modelled from the spec: BookmarkIdMapperService.get by native id — look a
mapping up by its native-side key. -/
def mapperGetByNativeId (mappings : List IdMapping) (nativeId : String) :
    Option IdMapping :=
  mappings.find? (fun m => m.nativeId = nativeId)

/-- Modelled from the spec: BookmarkIdMapperService.get by synced id — look a
mapping up by its canonical-side key. -/
def mapperGetBySyncedId (mappings : List IdMapping) (syncedId : Nat) :
    Option IdMapping :=
  mappings.find? (fun m => m.syncedId = syncedId)

/-- Modelled from the spec: BookmarkIdMapperService.remove with a set of
canonical ids — delete every mapping whose synced id is in the set (bulk
descendant cleanup). -/
def mapperRemove (mappings : List IdMapping) (syncedIds : List Nat) :
    List IdMapping :=
  mappings.filter (fun m => ¬ m.syncedId ∈ syncedIds)

mutual

/-- `browser.bookmarks.get`: find the native node with the given id. -/
def nativeGetL (id : String) : List NativeBookmarkNode → Option NativeBookmarkNode
  | [] => none
  | n :: ns =>
    match nativeGetT id n with
    | some r => some r
    | none => nativeGetL id ns

def nativeGetT (id : String) : NativeBookmarkNode → Option NativeBookmarkNode
  | .node i p x t u ch =>
    if i = id then some (.node i p x t u ch) else nativeGetL id ch

end

/-- `browser.bookmarks.get` / `getSubTree` against the environment's tree. -/
def Env.nativeGet (env : Env) (id : String) : Option NativeBookmarkNode :=
  nativeGetL id env.nativeRoots

/-- Modelled from the spec: BookmarkHelperService.getContainer without the
create flag — the root-level canonical bookmark carrying the container title. -/
def getContainer (name : String) (bookmarks : List Bookmark) : Option Bookmark :=
  bookmarks.find? (fun b => b.title = name)

/-- Modelled from the spec: BookmarkHelperService.getNewBookmarkId — a fresh
canonical id, one larger than every id in the tree and in the taken-ids
accumulator. -/
def getNewBookmarkId (bookmarks : List Bookmark) (takenIds : List Nat) : Nat :=
  (allIdsList bookmarks ++ takenIds).foldr max 0 + 1

/-- Modelled from the spec: BookmarkHelperService.getContainer with the create
flag — return the root-level container, creating and appending it when absent
(the source mutates the supplied array, so the possibly-extended tree is
returned alongside). -/
def getContainerOrCreate (name : String) (bookmarks : List Bookmark) :
    Bookmark × List Bookmark :=
  match getContainer name bookmarks with
  | some c => (c, bookmarks)
  | none =>
    let c := Bookmark.node (getNewBookmarkId bookmarks []) name none none []
    (c, bookmarks ++ [c])

/-- Modelled from the spec: BookmarkHelperService.newBookmark — build a fresh
canonical bookmark from metadata; a separator carries no title or url. -/
def newBookmark (meta : BookmarkMetadata) (bookmarks : List Bookmark) : Bookmark :=
  if meta.isSeparator then
    Bookmark.node (getNewBookmarkId bookmarks []) "" none none []
  else
    Bookmark.node (getNewBookmarkId bookmarks []) meta.title meta.url
      meta.description []

/-- Modelled from the spec: BookmarkHelperService.getContainerByBookmarkId —
the root-level container whose subtree holds the given id. -/
def getContainerByBookmarkId (id : Nat) (bookmarks : List Bookmark) :
    Option Bookmark :=
  bookmarks.find? (fun b => id ∈ allTreeIds b)

/-- Modelled from the spec: BookmarkHelperService.extractBookmarkMetadata on a
native node — copy title and url (tags and separator detection play no role in
the claims below). -/
def extractNativeMetadata (nb : NativeBookmarkNode) : BookmarkMetadata :=
  ⟨nb.title, nb.url, none, false⟩

/-- Modelled from the spec: BookmarkHelperService.extractBookmarkMetadata on a
canonical bookmark. -/
def extractBookmarkMetadata (b : Bookmark) : BookmarkMetadata :=
  ⟨b.title, b.url, b.description, false⟩

mutual

/-- Modelled from the spec: BookmarkHelperService.removeBookmarkById — delete
the node carrying the given id (its whole subtree goes with it). -/
def removeBookmarkById (id : Nat) : List Bookmark → List Bookmark
  | [] => []
  | b :: bs =>
    if b.id = id then removeBookmarkById id bs
    else removeBookmarkByIdTree id b :: removeBookmarkById id bs

def removeBookmarkByIdTree (id : Nat) : Bookmark → Bookmark
  | .node i t u d ch => .node i t u d (removeBookmarkById id ch)

end

/-- Modelled from the spec: BookmarkHelperService.bookmarkIsContainer on a
native node — its title is one of the reserved container names. -/
def nativeBookmarkIsContainer (nb : NativeBookmarkNode) : Bool :=
  nb.title = menuContainerTitle ∨ nb.title = mobileContainerTitle ∨
    nb.title = otherContainerTitle ∨ nb.title = toolbarContainerTitle

/-- Modelled from the spec: the platform `wasContainerChanged` check — the
changed native bookmark occupies the position of a reserved container root. -/
def wasContainerChanged (env : Env) (nb : NativeBookmarkNode) : Bool :=
  env.nativeContainerIds.any (fun p => p.2 = nb.id)

/-- Source `getContainerNameFromNativeId` (part_000 lines 465-489): probe the
candidate containers — other and toolbar always, menu and mobile when present —
and return the matching container name, or the empty string (falsy in the
source) when the id is no container root. -/
def getContainerNameFromNativeId (env : Env) (nativeBookmarkId : String) : String :=
  let cands : List (Option String × String) :=
    [(containerIdLookup env otherContainerTitle, otherContainerTitle),
     (containerIdLookup env toolbarContainerTitle, toolbarContainerTitle)] ++
    (match containerIdLookup env menuContainerTitle with
     | some m => [(some m, menuContainerTitle)]
     | none => []) ++
    (match containerIdLookup env mobileContainerTitle with
     | some m => [(some m, mobileContainerTitle)]
     | none => [])
  match cands.find? (fun p => p.1 = some nativeBookmarkId) with
  | some p => p.2
  | none => ""

/-- Source `isNativeBookmarkInToolbarContainer` (part_000 lines 536-540):
the node's parent is the toolbar root. -/
def isNativeBookmarkInToolbarContainer (env : Env) (nb : NativeBookmarkNode) : Bool :=
  match containerIdLookup env toolbarContainerTitle with
  | some t => nb.parentId = t
  | none => false

/-- Source `getSupportedUrl` (part_000 lines 521-534): empty string for a
missing url; the platform new-tab url for an unsupported one (the Bool records
that the substitution was logged). -/
def getSupportedUrl (env : Env) (url : Option String) : String × Bool :=
  match url with
  | none => ("", false)
  | some u => if env.urlIsSupported u then (u, false) else (env.newTabUrl, true)

/-- Source `getIdsFromDescendants` (part_000 lines 491-501): the ids of every
descendant of the bookmark (empty when it has no children). -/
def getIdsFromDescendants (b : Bookmark) : List Nat :=
  if b.children.isEmpty then [] else allIdsList b.children

/-- Source `createNativeBookmark` (part_000 lines 376-397).  Returns the host
response, the create details actually sent to the host, and whether an
unsupported-url substitution was logged. -/
def createNativeBookmark (env : Env) (parentId title : String)
    (url : Option String) (index : Option Nat) :
    Except Exc NativeBookmarkNode × CreateDetails × Bool :=
  let base : CreateDetails := ⟨index, parentId, title, none⟩
  -- Don't use unsupported urls for native bookmarks
  let info : CreateDetails × Bool :=
    match url with
    | none => (base, false)
    | some u =>
      let su := getSupportedUrl env (some u)
      (⟨index, parentId, title, some su.1⟩, su.2)
  match env.hostCreate info.1 with
  | some n => (.ok n, info.1, info.2)
  | none => (.error .failedCreateNativeBookmarks, info.1, info.2)

/-- Source `modifyNativeBookmark` (part_000 lines 542-557).  The update object
is built with only a title; the url guard tests `updateInfo.url`, which was
never assigned, so the substitution branch is unreachable and no url is ever
sent.  Returns the host response and the update actually sent. -/
def modifyNativeBookmark (env : Env) (id : String) (newMetadata : BookmarkMetadata) :
    Except Exc NativeBookmarkNode × UpdateChangesType :=
  let updateInfo : UpdateChangesType := ⟨some newMetadata.title, none⟩
  let updateInfo2 : UpdateChangesType :=
    match updateInfo.url with
    | some u => ⟨updateInfo.title, some (getSupportedUrl env (some u)).1⟩
    | none => updateInfo
  match env.hostUpdate id updateInfo2 with
  | some n => (.ok n, updateInfo2)
  | none => (.error .failedUpdateNativeBookmarks, updateInfo2)

/-- Source `addBookmark` (part_000 lines 94-123): copy the tree, find the
parent in the copy (BookmarkNotFound when absent), build the new bookmark from
the original tree, and splice it into the parent's children at the index. -/
def addBookmark (meta : BookmarkMetadata) (parentId : Nat) (index : Nat)
    (bookmarks : List Bookmark) : Except Exc UpdateBookmarksResult :=
  match findBookmarkById parentId bookmarks with
  | none => .error .bookmarkNotFound
  | some _ =>
    let bookmark := newBookmark meta bookmarks
    .ok ⟨bookmark,
      (modifyFirstL parentId
        (fun p => p.setChildren (spliceIn index bookmark p.children)) bookmarks).1⟩

/-- Source `addBookmark` with the caller's array tracked explicitly: the first
component is the call's result, the second is the value held by the array the
caller passed in once the call finishes.  `angular.copy` gives the callee a
fresh copy, the parent lookup and the splice touch only that copy, and
`newBookmark` merely reads the caller's array, so the caller's array keeps its
value on both the success and the failure path. -/
def addBookmarkWithCallerArray (meta : BookmarkMetadata) (parentId : Nat)
    (index : Nat) (callerArray : List Bookmark) :
    Except Exc UpdateBookmarksResult × List Bookmark :=
  -- const updatedBookmarks = angular.copy(bookmarks)
  let updatedBookmarks := callerArray
  match findBookmarkById parentId updatedBookmarks with
  | none => (.error .bookmarkNotFound, callerArray)
  | some _ =>
    -- newBookmark reads the original array (line 113 of the source)
    let bookmark := newBookmark meta callerArray
    -- parent.children.splice(index, 0, bookmark) mutates the copy only
    let updated2 :=
      (modifyFirstL parentId
        (fun p => p.setChildren (spliceIn index bookmark p.children))
        updatedBookmarks).1
    (.ok ⟨bookmark, updated2⟩, callerArray)

/-- Source `checkIfBookmarkChangeShouldBeSynced` (part_000 lines 245-258):
locate the container holding the changed bookmark in the supplied tree and
refuse to sync a toolbar change while toolbar sync is off. -/
def checkIfBookmarkChangeShouldBeSynced (env : Env) (changedBookmark : Bookmark)
    (bookmarks : List Bookmark) : Except Exc Bool :=
  match getContainerByBookmarkId changedBookmark.id bookmarks with
  | none => .error .containerNotFound
  | some container =>
    if container.title = toolbarContainerTitle ∧ ¬ env.syncBookmarksToolbar then
      .ok false
    else
      .ok true

mutual

/-- Source `convertNativeBookmarkToBookmark` (part_000 lines 275-300): draw a
fresh id (recording it in the taken-ids accumulator so that siblings do not
reuse it) and convert the children recursively. -/
def convertNativeBookmarkToBookmark (bookmarks : List Bookmark) :
    NativeBookmarkNode → List Nat → Bookmark × List Nat
  | .node _ _ _ t u ch, takenIds =>
    let id := getNewBookmarkId bookmarks takenIds
    let taken1 := takenIds ++ [id]
    let r := convertNativeList bookmarks ch taken1
    (Bookmark.node id t u none r.1, r.2)

def convertNativeList (bookmarks : List Bookmark) :
    List NativeBookmarkNode → List Nat → List Bookmark × List Nat
  | [], taken => ([], taken)
  | n :: ns, taken =>
    let r1 := convertNativeBookmarkToBookmark bookmarks n taken
    let r2 := convertNativeList bookmarks ns r1.2
    (r1.1 :: r2.1, r2.2)

end

/-- Source `createBookmarkFromNativeBookmarkId` (part_000 lines 365-374). -/
def createBookmarkFromNativeBookmarkId (env : Env) (id : String)
    (bookmarks : List Bookmark) : Except Exc Bookmark :=
  match env.nativeGet id with
  | none => .error .nativeBookmarkNotFound
  | some nb => .ok (convertNativeBookmarkToBookmark bookmarks nb []).1

/-- Source `countNativeContainersBeforeIndex` (part_000 lines 347-363): only
children of the native other-bookmarks root count, and only container folders
sitting at a child index below the given one. -/
def countNativeContainersBeforeIndex (env : Env) (parentId : String)
    (index : Nat) : Except Exc Nat :=
  if containerIdLookup env otherContainerTitle ≠ some parentId then .ok 0
  else
    match env.nativeGet parentId with
    | none => .error .nativeBookmarkNotFound
    | some node =>
      .ok (node.children.enum.filter
        (fun p => p.1 < index ∧ nativeBookmarkIsContainer p.2)).length

/-- The outcome of one classifier step: the replacement canonical tree (none
when the change is skipped) together with the id-mapping table as left behind. -/
abbrev SyncStepResult := Option (List Bookmark) × List IdMapping

/-- Parent resolution of `processChangeTypeAddOnBookmarks` (part_000 lines
607-625): a container name resolves through `getContainer` (create flag set,
so the tree may gain the container), anything else through the id mapper;
an unmapped parent yields no parent (skip sync). -/
def resolveAddParent (env : Env) (bookmarks : List Bookmark)
    (nativeParentId : String) : Option Nat × List Bookmark :=
  let containerName := getContainerNameFromNativeId env nativeParentId
  if containerName ≠ "" then
    let r := getContainerOrCreate containerName bookmarks
    (some r.1.id, r.2)
  else
    match mapperGetByNativeId env.mappings nativeParentId with
    | none => (none, bookmarks)
    | some m => (some m.syncedId, bookmarks)

/-- Source `processChangeTypeAddOnBookmarks` (part_000 lines 597-658). -/
def processChangeTypeAddOnBookmarks (env : Env) (bookmarks : List Bookmark)
    (nativeBookmark : NativeBookmarkNode) : Except Exc SyncStepResult :=
  if wasContainerChanged env nativeBookmark then .error .containerChanged
  else
    let rp := resolveAddParent env bookmarks nativeBookmark.parentId
    match rp.1 with
    | none => .ok (none, env.mappings)
    | some parentId =>
      -- `if (!parentId)` in the source is also met by the id 0
      if parentId = 0 then .ok (none, env.mappings)
      else
        match addBookmark (extractNativeMetadata nativeBookmark) parentId
            nativeBookmark.index rp.2 with
        | .error e => .error e
        | .ok r =>
          match checkIfBookmarkChangeShouldBeSynced env r.bookmark r.bookmarks with
          | .error e => .error e
          | .ok false => .ok (none, env.mappings)
          | .ok true =>
            .ok (some r.bookmarks,
              env.mappings ++ [⟨r.bookmark.id, nativeBookmark.id⟩])

/-- `Object.keys(nativeContainerIds).find(x => nativeContainerIds[x] ===
changeData.parentId)` (part_000 lines 667-669). -/
def containerNameFromIdsKeys (env : Env) (parentId : String) : Option String :=
  (env.nativeContainerIds.find? (fun p => p.2 = parentId)).map (fun p => p.1)

/-- The mapped canonical ids of the natively reordered children, in native
order (part_000 lines 683-687). -/
def reorderedChildIds (env : Env) (childIds : List String) : List Nat :=
  (childIds.filterMap (fun cid => mapperGetByNativeId env.mappings cid)).map
    (fun m => m.syncedId)

/-- Parent resolution of the ChildrenReordered handler (part_000 lines
664-680): a container root resolves by name, anything else through the id
mapper and a tree lookup.  A missing mapping, or a parent bookmark that cannot
be found, makes the source dereference `undefined` (TypeError). -/
def resolveReorderParent (env : Env) (bookmarks : List Bookmark)
    (parentId : String) : Except Exc Bookmark :=
  match containerNameFromIdsKeys env parentId with
  | some containerName =>
    match getContainer containerName bookmarks with
    | some p => .ok p
    | none => .error .typeError
  | none =>
    match mapperGetByNativeId env.mappings parentId with
    | none => .error .typeError
    | some m =>
      match findBookmarkById m.syncedId bookmarks with
      | some p => .ok p
      | none => .error .typeError

/-- The replacement child array computed by the ChildrenReordered handler
(part_000 lines 686-690): `childIds.map(id => children.find(x => x.id === id))`
over the mapped native child ids.  JavaScript `.map` is length-preserving, so
a missed lookup stores an undefined hole in the resulting array; the hole is
modelled as `none`, a found child as `some`. -/
def reorderedChildSlots (env : Env) (childIds : List String) (p : Bookmark) :
    List (Option Bookmark) :=
  (reorderedChildIds env childIds).map
    (fun cid => p.children.find? (fun x => x.id = cid))

/-- Source `processChangeTypeChildrenReorderedOnBookmarks` (part_000 lines
660-695): resolve the parent, then overwrite its child array with
`childIds.map(id => children.find(x => x.id === id))` and resolve with the
same (mutated) `bookmarks` array.  The stored array may contain undefined
holes, which the canonical tree type cannot carry, so the result keeps the
raw slot array alongside: the second component is exactly the array the
source stores into `parentBookmark.children` (`none` marking each undefined
hole), and the tree component carries its hole-erased reading (the defined
entries in order). -/
def processChangeTypeChildrenReorderedOnBookmarks (env : Env)
    (bookmarks : List Bookmark) (childIds : List String) (parentId : String) :
    Except Exc (List Bookmark × List (Option Bookmark)) :=
  match resolveReorderParent env bookmarks parentId with
  | .error e => .error e
  | .ok parentBookmark =>
    let slots := reorderedChildSlots env childIds parentBookmark
    .ok ((modifyFirstL parentBookmark.id
      (fun b => b.setChildren slots.reduceOption) bookmarks).1, slots)

/-- Source `processChangeTypeRemoveOnBookmarks` (part_000 lines 898-938). -/
def processChangeTypeRemoveOnBookmarks (env : Env) (bookmarks : List Bookmark)
    (nativeBookmark : NativeBookmarkNode) : Except Exc SyncStepResult :=
  if wasContainerChanged env nativeBookmark then .error .containerChanged
  else
    match mapperGetByNativeId env.mappings nativeBookmark.id with
    | none => .ok (none, env.mappings)
    | some idMapping =>
      match findBookmarkById idMapping.syncedId bookmarks with
      | none => .error .typeError
      | some bookmarkToRemove =>
        match checkIfBookmarkChangeShouldBeSynced env bookmarkToRemove bookmarks with
        | .error e => .error e
        | .ok false => .ok (none, env.mappings)
        | .ok true =>
          let descendantsIds := getIdsFromDescendants bookmarkToRemove
          let updatedBookmarks := removeBookmarkById idMapping.syncedId bookmarks
          let syncedIds := descendantsIds ++ [idMapping.syncedId]
          .ok (some updatedBookmarks, mapperRemove env.mappings syncedIds)

/-- Payload of a native onMoved event (MoveNativeBookmarkChangeData). -/
structure MoveNativeBookmarkChangeData where
  id : String
  index : Nat
  oldIndex : Nat
  oldParentId : String
  parentId : String
  deriving DecidableEq

/-- Source `processChangeTypeMoveOnBookmarks` (part_000 lines 758-896): a moved
reserved container aborts with ContainerChanged when its parent changed and is
silently skipped otherwise; anything else runs an independent remove stage (old
side mapped) and add stage (new side mapped), each gated by the sync-worthiness
check, with the mapping table extended only when a previously unmapped bookmark
lands in a mapped parent. -/
def processChangeTypeMoveOnBookmarks (env : Env) (bookmarks : List Bookmark)
    (cd : MoveNativeBookmarkChangeData) : Except Exc SyncStepResult :=
  match env.nativeGet cd.id with
  | none => .error .typeError
  | some movedBookmark =>
    if nativeBookmarkIsContainer movedBookmark then
      if cd.oldParentId ≠ cd.parentId then .error .containerChanged
      else .ok (none, env.mappings)
    else
      let movedBookmarkMapping := mapperGetByNativeId env.mappings cd.id
      let pname := getContainerNameFromNativeId env cd.parentId
      let pr : Option Nat × List Bookmark :=
        if pname ≠ "" then
          let r := getContainerOrCreate pname bookmarks
          (some r.1.id, r.2)
        else
          ((mapperGetByNativeId env.mappings cd.parentId).map
            (fun m => m.syncedId), bookmarks)
      let parentMapping := pr.1
      let bs1 := pr.2
      if movedBookmarkMapping.isNone ∧ parentMapping.isNone then
        .ok (none, env.mappings)
      else
        let btr : Except Exc Bookmark :=
          match movedBookmarkMapping with
          | none => createBookmarkFromNativeBookmarkId env cd.id bs1
          | some m =>
            match findBookmarkById m.syncedId bs1 with
            | none => .error .typeError
            | some b => .ok b
        match btr with
        | .error e => .error e
        | .ok bookmarkToRemove =>
          let rem : Except Exc (List Bookmark × Bool) :=
            match movedBookmarkMapping with
            | none => .ok (bs1, false)
            | some m =>
              match checkIfBookmarkChangeShouldBeSynced env bookmarkToRemove bs1 with
              | .error e => .error e
              | .ok false => .ok (bs1, false)
              | .ok true => .ok (removeBookmarkById m.syncedId bs1, true)
          match rem with
          | .error e => .error e
          | .ok (bookmarksAfterRemoval, changesMade1) =>
            let addStage : Except Exc (List Bookmark × Bool × List IdMapping) :=
              match parentMapping with
              | none => .ok (bookmarksAfterRemoval, changesMade1, env.mappings)
              | some parentSyncedId =>
                match countNativeContainersBeforeIndex env cd.parentId cd.index with
                | .error e => .error e
                | .ok numContainers =>
                  let index := cd.index - numContainers
                  let meta := extractBookmarkMetadata bookmarkToRemove
                  match addBookmark meta parentSyncedId index bookmarksAfterRemoval with
                  | .error e => .error e
                  | .ok r =>
                    -- addBookmarkResult.bookmark.id = bookmarkToRemove.id is an
                    -- in-place write to the node aliased inside the result tree
                    let bk := r.bookmark.setId bookmarkToRemove.id
                    let bks := (modifyFirstL r.bookmark.id
                      (fun b => b.setId bookmarkToRemove.id) r.bookmarks).1
                    match checkIfBookmarkChangeShouldBeSynced env bk bks with
                    | .error e => .error e
                    | .ok false => .ok (bookmarksAfterRemoval, changesMade1, env.mappings)
                    | .ok true =>
                      if movedBookmarkMapping.isSome then .ok (bks, true, env.mappings)
                      else .ok (bks, true, env.mappings ++ [⟨bk.id, cd.id⟩])
            match addStage with
            | .error e => .error e
            | .ok (updatedBookmarks, changesMade, mappings2) =>
              if changesMade then .ok (some updatedBookmarks, mappings2)
              else .ok (none, mappings2)

/-- The native write performed by a separator conversion. -/
inductive NativeWriteAction where
  | noWrite
  | updateTitle (id : String) (title : String)
  | removeAndCreate (removedId : String) (created : CreateDetails)
  deriving DecidableEq

/-- Source `convertNativeBookmarkToSeparator` (part_000 lines 302-345), as the
native write it performs.  The skip test and the update-in-place test branch on
the title and the toolbar membership exactly as the source conditions do; only
the not-in-toolbar skip case also inspects the url. -/
def convertNativeBookmarkToSeparator (env : Env) (bookmark : NativeBookmarkNode) :
    NativeWriteAction :=
  let inToolbar := isNativeBookmarkInToolbarContainer env bookmark
  -- Skip process if bookmark is not in toolbar and already native separator
  if (bookmark.url = some env.newTabUrl ∧ inToolbar = false ∧
        bookmark.title = horizontalSeparatorTitle) ∨
      (inToolbar = true ∧ bookmark.title = verticalSeparatorTitle) then
    .noWrite
  else
    let title := if inToolbar then verticalSeparatorTitle else horizontalSeparatorTitle
    -- If already a separator just update the title
    if (inToolbar = false ∧ bookmark.title = verticalSeparatorTitle) ∨
        (inToolbar = true ∧ bookmark.title = horizontalSeparatorTitle) then
      .updateTitle bookmark.id title
    else
      -- Remove and recreate bookmark as a separator
      .removeAndCreate bookmark.id
        ⟨some bookmark.index, bookmark.parentId, title, some env.newTabUrl⟩

/-- A listener-state transition issued by the engine. -/
inductive LEvent where
  | disable
  | enable
  deriving DecidableEq

/-- Listener state left behind by a sequence of transitions. -/
def runListeners (st : Bool) : List LEvent → Bool
  | [] => st
  | .disable :: es => runListeners false es
  | .enable :: es => runListeners true es

/-- Listener events of `convertNativeBookmarkToSeparator` (part_000 lines
302-345): the skip path touches no listeners; every other path disables them,
performs the write (which may fail) and re-enables them in a `finally`, through
`enableEventListeners`, which never consults the persisted sync-enabled flag.
The Bool records whether the conversion succeeded. -/
def convertSeparatorListenerTrace (env : Env) (bookmark : NativeBookmarkNode)
    (writeFails : Bool) : List LEvent × Bool :=
  match convertNativeBookmarkToSeparator env bookmark with
  | .noWrite => ([], true)
  | _ => ([.disable, .enable], !writeFails)

/-- Listener events of the tail of `processNativeBookmarkEventsQueue`
(part_000 line 984): `disableEventListeners().then(reorderUnsupportedContainers)
.then(this.enableEventListeners)` — the re-enable is chained with `then`, so a
failing reordering pass skips it. -/
def postSyncReorderListenerTrace (reorderFails : Bool) : List LEvent :=
  [.disable] ++ (if reorderFails then [] else [.enable])

/-- Source `toggleEventListeners` (background.js lines 755-776): an explicit
argument wins; with no argument the persisted sync-enabled flag decides. -/
def toggleEventListenersEvent (persistedSyncEnabled : Bool) :
    Option Bool → LEvent
  | some true => .enable
  | some false => .disable
  | none => if persistedSyncEnabled then .enable else .disable

/-- Listener events of `syncBookmarks` (background.js lines 708-753): a sync
that will touch local bookmarks first disables listeners; whether the sync
fails or succeeds, the `finally` runs `toggleEventListeners` with no argument,
which re-reads the persisted flag. -/
def syncBookmarksListenerTrace (affectsLocal syncFails persistedSyncEnabled : Bool) :
    List LEvent :=
  if syncFails then
    (if affectsLocal then
      [toggleEventListenersEvent persistedSyncEnabled (some false)] else [])
      ++ [toggleEventListenersEvent persistedSyncEnabled none]
  else
    (if affectsLocal then
      [toggleEventListenersEvent persistedSyncEnabled (some false)] else [])
      ++ [toggleEventListenersEvent persistedSyncEnabled none]

/-- Listener events of `convertLocalBookmarkToSeparator` (background.js lines
100-130): disable via `toggleEventListeners(false)`; a failing write triggers
`toggleEventListeners(true)` in the catch, and the `finally` runs
`toggleEventListeners(true)` unconditionally — the persisted flag is never
consulted on the way back. -/
def convertLocalSeparatorListenerTrace (persistedSyncEnabled writeFails : Bool) :
    List LEvent :=
  [toggleEventListenersEvent persistedSyncEnabled (some false)] ++
  (if writeFails then [toggleEventListenersEvent persistedSyncEnabled (some true)]
   else []) ++
  [toggleEventListenersEvent persistedSyncEnabled (some true)]

mutual

/-- All ids sitting under (and including) any node whose id is `id`. -/
def idsUnderL (id : Nat) : List Bookmark → List Nat
  | [] => []
  | b :: bs => idsUnderT id b ++ idsUnderL id bs

def idsUnderT (id : Nat) : Bookmark → List Nat
  | .node i t u d ch =>
    if i = id then allTreeIds (.node i t u d ch) else idsUnderL id ch

end

/-- A canonical id has an entry in the mapping table. -/
def isMapped (mappings : List IdMapping) (i : Nat) : Bool :=
  (mapperGetBySyncedId mappings i).isSome

def exampleMetadata : BookmarkMetadata :=
  ⟨"Example", some "http://example.com", none, false⟩

def exampleTree : List Bookmark :=
  [Bookmark.node 1 otherContainerTitle none none
    [Bookmark.node 2 "kid" (some "http://kid") none []]]

def hostEnv : Env :=
  ⟨true, [], [], [], fun u => u = "http://ok", "about:newtab",
   fun d => some (.node "new1" d.parentId 0 d.title d.url []),
   fun _ _ => none⟩

def c7env : Env :=
  ⟨true, [(toolbarContainerTitle, "tb"), (otherContainerTitle, "ob")], [], [],
   fun _ => true, "about:newtab", fun _ => none, fun _ _ => none⟩

def c7node : NativeBookmarkNode :=
  .node "n1" "tb" 0 verticalSeparatorTitle (some "https://example.com") []

def c7wnode : NativeBookmarkNode :=
  .node "n2" "pp" 3 "Some title" (some "https://example.org") []

def c6env : Env :=
  ⟨true, [(toolbarContainerTitle, "tb"), (otherContainerTitle, "ob")], [],
   [NativeBookmarkNode.node "tb" "root0" 0 toolbarContainerTitle none []],
   fun _ => true, "about:newtab", fun _ => none, fun _ _ => none⟩

def c6moveSameParent : MoveNativeBookmarkChangeData := ⟨"tb", 2, 0, "root0", "root0"⟩

def c6moveNewParent : MoveNativeBookmarkChangeData := ⟨"tb", 0, 0, "root0", "ob"⟩

def c1env : Env :=
  ⟨false, [(toolbarContainerTitle, "tb"), (otherContainerTitle, "ob")],
   [⟨2, "nB"⟩, ⟨99, "nX"⟩], [], fun _ => true, "about:newtab",
   fun _ => none, fun _ _ => none⟩

def c1tree : List Bookmark :=
  [Bookmark.node 10 toolbarContainerTitle none none
    [Bookmark.node 1 "A" (some "http://a") none [],
     Bookmark.node 2 "B" (some "http://b") none [],
     Bookmark.node 3 "C" (some "http://c") none []],
   Bookmark.node 20 otherContainerTitle none none []]

def c1parent : Bookmark :=
  Bookmark.node 10 toolbarContainerTitle none none
    [Bookmark.node 1 "A" (some "http://a") none [],
     Bookmark.node 2 "B" (some "http://b") none [],
     Bookmark.node 3 "C" (some "http://c") none []]

def c1result : List Bookmark :=
  [Bookmark.node 10 toolbarContainerTitle none none
    [Bookmark.node 2 "B" (some "http://b") none []],
   Bookmark.node 20 otherContainerTitle none none []]

def c4env : Env :=
  ⟨false, [(toolbarContainerTitle, "tb"), (otherContainerTitle, "ob")], [], [],
   fun _ => true, "about:newtab", fun _ => none, fun _ _ => none⟩

def c4tree : List Bookmark :=
  [Bookmark.node 1 toolbarContainerTitle none none [],
   Bookmark.node 2 otherContainerTitle none none []]

def c4native : NativeBookmarkNode :=
  .node "n9" "tb" 0 "Example" (some "http://example.com") []

def c4newBookmark : Bookmark :=
  Bookmark.node 3 "Example" (some "http://example.com") none []

def c4resultTree : List Bookmark :=
  [Bookmark.node 1 toolbarContainerTitle none none [c4newBookmark],
   Bookmark.node 2 otherContainerTitle none none []]

def c2env : Env :=
  ⟨true, [(toolbarContainerTitle, "tb"), (otherContainerTitle, "ob")],
   [⟨5, "n5"⟩, ⟨6, "n6"⟩, ⟨9, "n9"⟩], [], fun _ => true, "about:newtab",
   fun _ => none, fun _ _ => none⟩

def c2tree : List Bookmark :=
  [Bookmark.node 20 otherContainerTitle none none
    [Bookmark.node 5 "folder" none none
      [Bookmark.node 6 "kidA" (some "http://a") none [],
       Bookmark.node 7 "kidB" (some "http://b") none []]],
   Bookmark.node 9 toolbarContainerTitle none none []]

def c2folder : Bookmark :=
  Bookmark.node 5 "folder" none none
    [Bookmark.node 6 "kidA" (some "http://a") none [],
     Bookmark.node 7 "kidB" (some "http://b") none []]

def c2native : NativeBookmarkNode :=
  .node "n5" "ob" 0 "folder" none []

-- ===== THEOREMS =====

@[simp] theorem allIdsList_nil : allIdsList [] = [] := rfl

@[simp] theorem allIdsList_cons (b : Bookmark) (bs : List Bookmark) :
    allIdsList (b :: bs) = allTreeIds b ++ allIdsList bs := by
  simp [allIdsList]

@[simp] theorem allTreeIds_node (i : Nat) (t : String) (u d : Option String)
    (ch : List Bookmark) :
    allTreeIds (Bookmark.node i t u d ch) = i :: allIdsList ch := by
  simp [allTreeIds]

mutual

theorem findBookmarkById_id (id : Nat) (bs : List Bookmark) (p : Bookmark)
    (h : findBookmarkById id bs = some p) : p.id = id := by
  cases bs with
  | nil => simp [findBookmarkById] at h
  | cons b rest =>
    rw [findBookmarkById] at h
    cases hb : findBookmarkByIdTree id b with
    | some r =>
      simp only [hb] at h
      injection h with h
      subst h
      exact findBookmarkByIdTree_id id b r hb
    | none =>
      simp only [hb] at h
      exact findBookmarkById_id id rest p h

theorem findBookmarkByIdTree_id (id : Nat) (b : Bookmark) (p : Bookmark)
    (h : findBookmarkByIdTree id b = some p) : p.id = id := by
  cases b with
  | node i t u d ch =>
    rw [findBookmarkByIdTree] at h
    by_cases hi : i = id
    · rw [if_pos hi] at h
      injection h with h
      subst h
      simpa using hi
    · rw [if_neg hi] at h
      exact findBookmarkById_id id ch p h

end

mutual

theorem findBookmarkById_eq_none (id : Nat) (bs : List Bookmark) :
    findBookmarkById id bs = none ↔ id ∉ allIdsList bs := by
  cases bs with
  | nil => simp [findBookmarkById]
  | cons b rest =>
    rw [findBookmarkById]
    cases hb : findBookmarkByIdTree id b with
    | some r =>
      simp only []
      constructor
      · intro h; cases h
      · intro h
        exfalso
        apply h
        have : id ∈ allTreeIds b := by
          by_contra hmem
          rw [(findBookmarkByIdTree_eq_none id b).2 hmem] at hb
          cases hb
        simp [this]
    | none =>
      have hbmem : id ∉ allTreeIds b := (findBookmarkByIdTree_eq_none id b).1 hb
      simp only []
      rw [findBookmarkById_eq_none id rest]
      simp [hbmem]

theorem findBookmarkByIdTree_eq_none (id : Nat) (b : Bookmark) :
    findBookmarkByIdTree id b = none ↔ id ∉ allTreeIds b := by
  cases b with
  | node i t u d ch =>
    rw [findBookmarkByIdTree]
    by_cases hi : i = id
    · simp [hi]
    · rw [if_neg hi]
      rw [findBookmarkById_eq_none id ch]
      simp [hi]
      intro h
      exact fun he => hi he.symm

end

theorem findBookmarkById_mem (id : Nat) (bs : List Bookmark) (p : Bookmark)
    (h : findBookmarkById id bs = some p) : id ∈ allIdsList bs := by
  by_contra hmem
  rw [(findBookmarkById_eq_none id bs).2 hmem] at h
  cases h

mutual

theorem modifyFirstL_of_find_none (id : Nat) (f : Bookmark → Bookmark)
    (bs : List Bookmark) (h : findBookmarkById id bs = none) :
    modifyFirstL id f bs = (bs, false) := by
  cases bs with
  | nil => rw [modifyFirstL]
  | cons b rest =>
    rw [findBookmarkById] at h
    cases hb : findBookmarkByIdTree id b with
    | some r => simp [hb] at h
    | none =>
      simp only [hb] at h
      rw [modifyFirstL]
      rw [modifyFirstT_of_find_none id f b hb]
      rw [modifyFirstL_of_find_none id f rest h]
      simp

theorem modifyFirstT_of_find_none (id : Nat) (f : Bookmark → Bookmark)
    (b : Bookmark) (h : findBookmarkByIdTree id b = none) :
    modifyFirstT id f b = (b, false) := by
  cases b with
  | node i t u d ch =>
    rw [findBookmarkByIdTree] at h
    by_cases hi : i = id
    · rw [if_pos hi] at h
      cases h
    · rw [if_neg hi] at h
      rw [modifyFirstT]
      rw [if_neg hi]
      rw [modifyFirstL_of_find_none id f ch h]

end

theorem findBookmarkByIdTree_self (id : Nat) (b : Bookmark) (h : b.id = id) :
    findBookmarkByIdTree id b = some b := by
  cases b with
  | node i t u d ch =>
    rw [findBookmarkByIdTree]
    simp at h
    rw [if_pos h]

theorem findBookmarkById_cons (id : Nat) (b : Bookmark) (bs : List Bookmark) :
    findBookmarkById id (b :: bs) =
      match findBookmarkByIdTree id b with
      | some r => some r
      | none => findBookmarkById id bs := by
  rw [findBookmarkById]

theorem modifyFirstL_cons_hit (id : Nat) (f : Bookmark → Bookmark) (b : Bookmark)
    (bs : List Bookmark) (h : (modifyFirstT id f b).2 = true) :
    modifyFirstL id f (b :: bs) = ((modifyFirstT id f b).1 :: bs, true) := by
  rw [modifyFirstL]
  simp [h]

theorem modifyFirstL_cons_miss (id : Nat) (f : Bookmark → Bookmark) (b : Bookmark)
    (bs : List Bookmark) (h : (modifyFirstT id f b).2 = false) :
    modifyFirstL id f (b :: bs) =
      ((modifyFirstT id f b).1 :: (modifyFirstL id f bs).1, (modifyFirstL id f bs).2) := by
  rw [modifyFirstL]
  simp [h]

mutual

theorem modifyFirstL_decomp (id : Nat) (f : Bookmark → Bookmark)
    (bs : List Bookmark) (p : Bookmark) (h : findBookmarkById id bs = some p) :
    ∃ pre post, allIdsList bs = pre ++ (allTreeIds p ++ post) ∧
      allIdsList (modifyFirstL id f bs).1 = pre ++ (allTreeIds (f p) ++ post) ∧
      (modifyFirstL id f bs).2 = true := by
  cases bs with
  | nil => simp [findBookmarkById] at h
  | cons b rest =>
    rw [findBookmarkById_cons] at h
    cases hb : findBookmarkByIdTree id b with
    | some r =>
      simp only [hb] at h
      injection h with h
      subst h
      obtain ⟨pre, post, h1, h2, h3⟩ := modifyFirstT_decomp id f b r hb
      refine ⟨pre, post ++ allIdsList rest, ?_, ?_, ?_⟩
      · simp [h1]
      · rw [modifyFirstL_cons_hit id f b rest h3]
        simp [h2]
      · rw [modifyFirstL_cons_hit id f b rest h3]
    | none =>
      simp only [hb] at h
      obtain ⟨pre, post, h1, h2, h3⟩ := modifyFirstL_decomp id f rest p h
      refine ⟨allTreeIds b ++ pre, post, ?_, ?_, ?_⟩
      · simp [h1]
      · rw [modifyFirstL_cons_miss id f b rest
          (by rw [modifyFirstT_of_find_none id f b hb])]
        rw [modifyFirstT_of_find_none id f b hb]
        simp [h2]
      · rw [modifyFirstL_cons_miss id f b rest
          (by rw [modifyFirstT_of_find_none id f b hb])]
        simp [h3]

theorem modifyFirstT_decomp (id : Nat) (f : Bookmark → Bookmark)
    (b : Bookmark) (p : Bookmark) (h : findBookmarkByIdTree id b = some p) :
    ∃ pre post, allTreeIds b = pre ++ (allTreeIds p ++ post) ∧
      allTreeIds (modifyFirstT id f b).1 = pre ++ (allTreeIds (f p) ++ post) ∧
      (modifyFirstT id f b).2 = true := by
  cases b with
  | node i t u d ch =>
    rw [findBookmarkByIdTree] at h
    by_cases hi : i = id
    · rw [if_pos hi] at h
      injection h with h
      refine ⟨[], [], by simp [h], ?_, ?_⟩
      · rw [modifyFirstT]
        rw [if_pos hi]
        simp [h]
      · rw [modifyFirstT]
        rw [if_pos hi]
    · rw [if_neg hi] at h
      obtain ⟨pre, post, h1, h2, h3⟩ := modifyFirstL_decomp id f ch p h
      refine ⟨i :: pre, post, ?_, ?_, ?_⟩
      · simp [h1]
      · rw [modifyFirstT]
        rw [if_neg hi]
        simp [h2]
      · rw [modifyFirstT]
        rw [if_neg hi]
        simp [h3]

end

mutual

theorem find_modifyFirstL (id : Nat) (f : Bookmark → Bookmark)
    (bs : List Bookmark) (p : Bookmark) (h : findBookmarkById id bs = some p)
    (hf : (f p).id = id) :
    findBookmarkById id (modifyFirstL id f bs).1 = some (f p) := by
  cases bs with
  | nil => simp [findBookmarkById] at h
  | cons b rest =>
    rw [findBookmarkById_cons] at h
    cases hb : findBookmarkByIdTree id b with
    | some r =>
      simp only [hb] at h
      injection h with h
      subst h
      obtain ⟨-, -, -, -, h3⟩ := modifyFirstT_decomp id f b r hb
      rw [modifyFirstL_cons_hit id f b rest h3]
      rw [findBookmarkById_cons]
      rw [find_modifyFirstT id f b r hb hf]
    | none =>
      simp only [hb] at h
      rw [modifyFirstL_cons_miss id f b rest
        (by rw [modifyFirstT_of_find_none id f b hb])]
      rw [findBookmarkById_cons]
      rw [modifyFirstT_of_find_none id f b hb]
      rw [hb]
      exact find_modifyFirstL id f rest p h hf

theorem find_modifyFirstT (id : Nat) (f : Bookmark → Bookmark)
    (b : Bookmark) (p : Bookmark) (h : findBookmarkByIdTree id b = some p)
    (hf : (f p).id = id) :
    findBookmarkByIdTree id (modifyFirstT id f b).1 = some (f p) := by
  cases b with
  | node i t u d ch =>
    rw [findBookmarkByIdTree] at h
    by_cases hi : i = id
    · rw [if_pos hi] at h
      injection h with h
      subst h
      rw [modifyFirstT]
      rw [if_pos hi]
      exact findBookmarkByIdTree_self id _ hf
    · rw [if_neg hi] at h
      rw [modifyFirstT]
      rw [if_neg hi]
      rw [findBookmarkByIdTree]
      rw [if_neg hi]
      exact find_modifyFirstL id f ch p h hf

end

@[simp] theorem allTreeIds_setChildren (p : Bookmark) (ch : List Bookmark) :
    allTreeIds (p.setChildren ch) = p.id :: allIdsList ch := by
  cases p
  simp [Bookmark.setChildren]

mutual

theorem countTree_eq_length (b : Bookmark) :
    countTree b = (allTreeIds b).length := by
  cases b with
  | node i t u d ch =>
    rw [countTree]
    simp [countList_eq_length ch]
    omega

theorem countList_eq_length (bs : List Bookmark) :
    countList bs = (allIdsList bs).length := by
  cases bs with
  | nil => rw [countList]; simp
  | cons b rest =>
    rw [countList]
    simp [countTree_eq_length b, countList_eq_length rest]

end

theorem le_foldr_max (l : List Nat) (x : Nat) (h : x ∈ l) : x ≤ l.foldr max 0 := by
  induction l with
  | nil => cases h
  | cons a as ih =>
    rcases List.mem_cons.1 h with h1 | h1
    · subst h1
      exact le_max_left _ _
    · exact le_trans (ih h1) (le_max_right _ _)

theorem getNewBookmarkId_not_mem_tree (bs : List Bookmark) (taken : List Nat) :
    getNewBookmarkId bs taken ∉ allIdsList bs := by
  intro h
  have := le_foldr_max (allIdsList bs ++ taken) _ (List.mem_append_left taken h)
  simp [getNewBookmarkId] at this

theorem getNewBookmarkId_not_mem_taken (bs : List Bookmark) (taken : List Nat) :
    getNewBookmarkId bs taken ∉ taken := by
  intro h
  have := le_foldr_max (allIdsList bs ++ taken) _ (List.mem_append_right (allIdsList bs) h)
  simp [getNewBookmarkId] at this

theorem allIdsList_spliceIn_perm (n : Nat) (b : Bookmark) (l : List Bookmark) :
    (allIdsList (spliceIn n b l)).Perm (allTreeIds b ++ allIdsList l) := by
  induction l generalizing n with
  | nil => simp [spliceIn]
  | cons x xs ih =>
    cases n with
    | zero => simp [spliceIn]
    | succ m =>
      rw [spliceIn]
      simp only [allIdsList_cons]
      refine List.Perm.trans (List.Perm.append_left _ (ih m)) ?_
      exact List.perm_append_comm_assoc _ _ _

theorem addBookmark_some (meta : BookmarkMetadata) (pid idx : Nat)
    (bs : List Bookmark) (parent : Bookmark)
    (h : findBookmarkById pid bs = some parent) :
    addBookmark meta pid idx bs = .ok ⟨newBookmark meta bs,
      (modifyFirstL pid
        (fun p => p.setChildren (spliceIn idx (newBookmark meta bs) p.children))
        bs).1⟩ := by
  rw [addBookmark, h]

theorem addBookmark_none (meta : BookmarkMetadata) (pid idx : Nat)
    (bs : List Bookmark) (h : findBookmarkById pid bs = none) :
    addBookmark meta pid idx bs = .error .bookmarkNotFound := by
  rw [addBookmark, h]

@[simp] theorem newBookmark_id (meta : BookmarkMetadata) (bs : List Bookmark) :
    (newBookmark meta bs).id = getNewBookmarkId bs [] := by
  rw [newBookmark]
  split
  · simp
  · simp

theorem allTreeIds_newBookmark (meta : BookmarkMetadata) (bs : List Bookmark) :
    allTreeIds (newBookmark meta bs) = [getNewBookmarkId bs []] := by
  rw [newBookmark]
  split
  · simp
  · simp

theorem allTreeIds_eq_cons (p : Bookmark) :
    allTreeIds p = p.id :: allIdsList p.children := by
  cases p
  simp

theorem addBookmark_ok_spec (meta : BookmarkMetadata) (pid idx : Nat)
    (bs : List Bookmark) (parent : Bookmark) (r : UpdateBookmarksResult)
    (h : findBookmarkById pid bs = some parent)
    (hr : addBookmark meta pid idx bs = .ok r) :
    r.bookmark = newBookmark meta bs ∧
    countList r.bookmarks = countList bs + 1 ∧
    (∀ j, j ∈ allIdsList bs → j ∈ allIdsList r.bookmarks) ∧
    r.bookmark.id ∈ allIdsList r.bookmarks ∧
    r.bookmark.id ∉ allIdsList bs := by
  rw [addBookmark_some meta pid idx bs parent h] at hr
  injection hr with hr
  subst hr
  obtain ⟨pre, post, h1, h2, -⟩ :=
    modifyFirstL_decomp pid
      (fun p => p.setChildren (spliceIn idx (newBookmark meta bs) p.children))
      bs parent h
  simp only [Bookmark.setChildren_id, allTreeIds_setChildren] at h2
  have hperm := allIdsList_spliceIn_perm idx (newBookmark meta bs) parent.children
  have hnb := allTreeIds_newBookmark meta bs
  have hparent := allTreeIds_eq_cons parent
  refine ⟨rfl, ?_, ?_, ?_, ?_⟩
  · rw [countList_eq_length, countList_eq_length]
    simp only []
    rw [h2, h1, hparent]
    simp [hperm.length_eq, hnb]
    omega
  · intro j hj
    simp only []
    rw [h1, hparent] at hj
    rw [h2]
    simp only [List.mem_append, List.mem_cons] at hj ⊢
    rw [hperm.mem_iff]
    simp only [List.mem_append]
    tauto
  · have hin : (newBookmark meta bs).id ∈
        allIdsList (spliceIn idx (newBookmark meta bs) parent.children) := by
      rw [hperm.mem_iff]
      simp [hnb]
    simp only []
    rw [h2]
    simp only [newBookmark_id] at hin
    simp [List.mem_append, hin]
  · simp only [newBookmark_id]
    rw [h1, hparent]
    have hfresh := getNewBookmarkId_not_mem_tree bs []
    rw [h1, hparent] at hfresh
    exact hfresh

mutual

theorem removeBookmarkById_not_mem (id : Nat) (bs : List Bookmark) :
    id ∉ allIdsList (removeBookmarkById id bs) := by
  cases bs with
  | nil => rw [removeBookmarkById]; simp
  | cons b rest =>
    rw [removeBookmarkById]
    by_cases hb : b.id = id
    · rw [if_pos hb]
      exact removeBookmarkById_not_mem id rest
    · rw [if_neg hb]
      simp only [allIdsList_cons, List.mem_append]
      push_neg
      exact ⟨removeBookmarkByIdTree_not_mem id b hb,
        removeBookmarkById_not_mem id rest⟩

theorem removeBookmarkByIdTree_not_mem (id : Nat) (b : Bookmark)
    (hb : b.id ≠ id) : id ∉ allTreeIds (removeBookmarkByIdTree id b) := by
  cases b with
  | node i t u d ch =>
    rw [removeBookmarkByIdTree]
    simp only [allTreeIds_node, List.mem_cons]
    push_neg
    refine ⟨?_, removeBookmarkById_not_mem id ch⟩
    intro he
    exact hb (by simp [he.symm])

end

mutual

theorem removeBookmarkById_subset (id : Nat) (bs : List Bookmark) (j : Nat)
    (h : j ∈ allIdsList (removeBookmarkById id bs)) : j ∈ allIdsList bs := by
  cases bs with
  | nil => rw [removeBookmarkById] at h; simp at h
  | cons b rest =>
    rw [removeBookmarkById] at h
    by_cases hb : b.id = id
    · rw [if_pos hb] at h
      simp only [allIdsList_cons, List.mem_append]
      exact Or.inr (removeBookmarkById_subset id rest j h)
    · rw [if_neg hb] at h
      simp only [allIdsList_cons, List.mem_append] at h ⊢
      rcases h with h | h
      · exact Or.inl (removeBookmarkByIdTree_subset id b j h)
      · exact Or.inr (removeBookmarkById_subset id rest j h)

theorem removeBookmarkByIdTree_subset (id : Nat) (b : Bookmark) (j : Nat)
    (h : j ∈ allTreeIds (removeBookmarkByIdTree id b)) : j ∈ allTreeIds b := by
  cases b with
  | node i t u d ch =>
    rw [removeBookmarkByIdTree] at h
    simp only [allTreeIds_node, List.mem_cons] at h ⊢
    rcases h with h | h
    · exact Or.inl h
    · exact Or.inr (removeBookmarkById_subset id ch j h)

end

mutual

theorem removeBookmarkById_keeps (id : Nat) (bs : List Bookmark) (j : Nat)
    (hj : j ∈ allIdsList bs) (hout : j ∉ idsUnderL id bs) :
    j ∈ allIdsList (removeBookmarkById id bs) := by
  cases bs with
  | nil => simp at hj
  | cons b rest =>
    rw [removeBookmarkById]
    rw [idsUnderL] at hout
    simp only [List.mem_append] at hout
    push_neg at hout
    simp only [allIdsList_cons, List.mem_append] at hj
    by_cases hb : b.id = id
    · rw [if_pos hb]
      rcases hj with hj | hj
      · exfalso
        apply hout.1
        cases b with
        | node i t u d ch =>
          rw [idsUnderT]
          simp at hb
          rw [if_pos hb]
          exact hj
      · exact removeBookmarkById_keeps id rest j hj hout.2
    · rw [if_neg hb]
      simp only [allIdsList_cons, List.mem_append]
      rcases hj with hj | hj
      · exact Or.inl (removeBookmarkByIdTree_keeps id b j hj hout.1)
      · exact Or.inr (removeBookmarkById_keeps id rest j hj hout.2)

theorem removeBookmarkByIdTree_keeps (id : Nat) (b : Bookmark) (j : Nat)
    (hj : j ∈ allTreeIds b) (hout : j ∉ idsUnderT id b) :
    j ∈ allTreeIds (removeBookmarkByIdTree id b) := by
  cases b with
  | node i t u d ch =>
    rw [idsUnderT] at hout
    by_cases hi : i = id
    · rw [if_pos hi] at hout
      exact absurd hj hout
    · rw [if_neg hi] at hout
      rw [removeBookmarkByIdTree]
      simp only [allTreeIds_node, List.mem_cons] at hj ⊢
      rcases hj with hj | hj
      · exact Or.inl hj
      · exact Or.inr (removeBookmarkById_keeps id ch j hj hout)

end

mutual

theorem idsUnderL_eq_nil (id : Nat) (bs : List Bookmark)
    (h : id ∉ allIdsList bs) : idsUnderL id bs = [] := by
  cases bs with
  | nil => rw [idsUnderL]
  | cons b rest =>
    rw [idsUnderL]
    simp only [allIdsList_cons, List.mem_append] at h
    push_neg at h
    rw [idsUnderT_eq_nil id b h.1, idsUnderL_eq_nil id rest h.2]
    rfl

theorem idsUnderT_eq_nil (id : Nat) (b : Bookmark)
    (h : id ∉ allTreeIds b) : idsUnderT id b = [] := by
  cases b with
  | node i t u d ch =>
    rw [idsUnderT]
    simp only [allTreeIds_node, List.mem_cons] at h
    push_neg at h
    rw [if_neg (fun he => h.1 he.symm)]
    exact idsUnderL_eq_nil id ch h.2

end

mutual

theorem idsUnderL_of_find (id : Nat) (bs : List Bookmark) (r : Bookmark)
    (hnd : (allIdsList bs).Nodup) (h : findBookmarkById id bs = some r) :
    idsUnderL id bs = allTreeIds r := by
  cases bs with
  | nil => simp [findBookmarkById] at h
  | cons b rest =>
    rw [findBookmarkById_cons] at h
    rw [idsUnderL]
    simp only [allIdsList_cons] at hnd
    rw [List.nodup_append] at hnd
    cases hb : findBookmarkByIdTree id b with
    | some q =>
      simp only [hb] at h
      injection h with h
      subst h
      have hidb : id ∈ allTreeIds b := by
        by_contra hmem
        rw [(findBookmarkByIdTree_eq_none id b).2 hmem] at hb
        cases hb
      have hrest : id ∉ allIdsList rest := fun hmem => hnd.2.2 hidb hmem
      rw [idsUnderT_of_find id b q hnd.1 hb, idsUnderL_eq_nil id rest hrest]
      simp
    | none =>
      simp only [hb] at h
      have hidb : id ∉ allTreeIds b := (findBookmarkByIdTree_eq_none id b).1 hb
      rw [idsUnderT_eq_nil id b hidb]
      rw [idsUnderL_of_find id rest r hnd.2.1 h]
      simp

theorem idsUnderT_of_find (id : Nat) (b : Bookmark) (r : Bookmark)
    (hnd : (allTreeIds b).Nodup) (h : findBookmarkByIdTree id b = some r) :
    idsUnderT id b = allTreeIds r := by
  cases b with
  | node i t u d ch =>
    rw [findBookmarkByIdTree] at h
    rw [idsUnderT]
    by_cases hi : i = id
    · rw [if_pos hi] at h
      injection h with h
      subst h
      rw [if_pos hi]
    · rw [if_neg hi] at h
      rw [if_neg hi]
      simp only [allTreeIds_node, List.nodup_cons] at hnd
      exact idsUnderL_of_find id ch r hnd.2 h

end

theorem mem_allIdsList_of_mem (p : Bookmark) (bs : List Bookmark) (h : p ∈ bs) :
    p.id ∈ allIdsList bs := by
  induction bs with
  | nil => cases h
  | cons b rest ih =>
    simp only [allIdsList_cons, List.mem_append]
    rcases List.mem_cons.1 h with h1 | h1
    · subst h1
      left
      rw [allTreeIds_eq_cons]
      exact List.mem_cons_self _ _
    · exact Or.inr (ih h1)

theorem findBookmarkById_of_mem_nodup (p : Bookmark) (bs : List Bookmark)
    (hnd : (allIdsList bs).Nodup) (h : p ∈ bs) :
    findBookmarkById p.id bs = some p := by
  induction bs with
  | nil => cases h
  | cons b rest ih =>
    simp only [allIdsList_cons] at hnd
    rw [List.nodup_append] at hnd
    rw [findBookmarkById_cons]
    rcases List.mem_cons.1 h with h1 | h1
    · subst h1
      rw [findBookmarkByIdTree_self p.id p rfl]
    · have hidrest : p.id ∈ allIdsList rest := mem_allIdsList_of_mem p rest h1
      have hidb : p.id ∉ allTreeIds b := fun hmem => hnd.2.2 hmem hidrest
      rw [(findBookmarkByIdTree_eq_none p.id b).2 hidb]
      exact ih hnd.2.1 h1

theorem countP_or_disjoint {α : Type} (l : List α) (p q : α → Bool)
    (h : ∀ a ∈ l, ¬(p a = true ∧ q a = true)) :
    l.countP (fun a => p a || q a) = l.countP p + l.countP q := by
  induction l with
  | nil => simp
  | cons a as ih =>
    rw [List.countP_cons, List.countP_cons, List.countP_cons]
    rw [ih (fun x hx => h x (List.mem_cons_of_mem a hx))]
    have ha := h a (List.mem_cons_self a as)
    by_cases hp : p a = true
    · have hq : ¬ q a = true := fun hq => ha ⟨hp, hq⟩
      simp [hp, hq]
      omega
    · simp [Bool.not_eq_true] at hp
      simp [hp]
      omega

theorem countP_syncedId_self (M : List IdMapping) (m : IdMapping)
    (hnd : (M.map IdMapping.syncedId).Nodup) (hm : m ∈ M) :
    M.countP (fun x => decide (x.syncedId = m.syncedId)) = 1 := by
  induction M with
  | nil => cases hm
  | cons a as ih =>
    rw [List.map_cons, List.nodup_cons] at hnd
    rw [List.countP_cons]
    rcases List.mem_cons.1 hm with h1 | h1
    · subst h1
      have hz : as.countP (fun x => decide (x.syncedId = m.syncedId)) = 0 := by
        rw [List.countP_eq_zero]
        intro x hx
        simp only [decide_eq_true_eq]
        intro hxe
        exact hnd.1 (hxe ▸ List.mem_map_of_mem IdMapping.syncedId hx)
      simp [hz]
    · have ha : ¬ (a.syncedId = m.syncedId) := by
        intro he
        exact hnd.1 (he ▸ List.mem_map_of_mem IdMapping.syncedId h1)
      rw [ih hnd.2 h1]
      simp [ha]

theorem countP_syncedId_not_mapped (M : List IdMapping) (i : Nat)
    (h : isMapped M i = false) :
    M.countP (fun x => decide (x.syncedId = i)) = 0 := by
  rw [List.countP_eq_zero]
  intro x hx
  simp only [decide_eq_true_eq]
  intro hxe
  unfold isMapped mapperGetBySyncedId at h
  cases hfind : M.find? (fun m => decide (m.syncedId = i)) with
  | some q => rw [hfind] at h; simp at h
  | none =>
    have := List.find?_eq_none.1 hfind x hx
    simp [hxe] at this

theorem isMapped_exists (M : List IdMapping) (i : Nat) (h : isMapped M i = true) :
    ∃ m ∈ M, m.syncedId = i := by
  unfold isMapped mapperGetBySyncedId at h
  cases hfind : M.find? (fun m => decide (m.syncedId = i)) with
  | none => rw [hfind] at h; simp at h
  | some m =>
    have h1 := List.find?_some hfind
    have h2 := List.mem_of_find?_eq_some hfind
    simp only [decide_eq_true_eq] at h1
    exact ⟨m, h2, h1⟩

theorem countP_mem_eq_count_mapped (M : List IdMapping) (D : List Nat)
    (hndD : D.Nodup) (hndM : (M.map IdMapping.syncedId).Nodup) :
    M.countP (fun m => decide (m.syncedId ∈ D)) =
      D.countP (fun i => isMapped M i) := by
  induction D with
  | nil => simp
  | cons d ds ih =>
    rw [List.nodup_cons] at hndD
    have hsplit : M.countP (fun m => decide (m.syncedId ∈ d :: ds)) =
        M.countP (fun m => decide (m.syncedId = d)) +
        M.countP (fun m => decide (m.syncedId ∈ ds)) := by
      rw [← countP_or_disjoint M (fun m => decide (m.syncedId = d))
        (fun m => decide (m.syncedId ∈ ds)) ?_]
      · apply List.countP_congr
        intro m hm
        simp [List.mem_cons]
      · rintro m hm ⟨h1, h2⟩
        simp only [decide_eq_true_eq] at h1 h2
        exact hndD.1 (h1 ▸ h2)
    rw [hsplit, List.countP_cons, ih hndD.2]
    by_cases hmap : isMapped M d = true
    · obtain ⟨m, hm, hme⟩ := isMapped_exists M d hmap
      subst hme
      rw [countP_syncedId_self M m hndM hm]
      simp [hmap]
      omega
    · rw [Bool.not_eq_true] at hmap
      rw [countP_syncedId_not_mapped M d hmap]
      simp [hmap]

theorem mapperRemove_length (M : List IdMapping) (ids : List Nat) :
    (mapperRemove M ids).length +
      M.countP (fun m => decide (m.syncedId ∈ ids)) = M.length := by
  induction M with
  | nil => simp [mapperRemove]
  | cons a as ih =>
    unfold mapperRemove at ih ⊢
    simp only [decide_not] at ih ⊢
    rw [List.filter_cons, List.countP_cons]
    by_cases hmem : a.syncedId ∈ ids
    · simp [hmem]
      omega
    · simp [hmem]
      omega

theorem mem_mapperRemove (M : List IdMapping) (ids : List Nat) (m : IdMapping) :
    m ∈ mapperRemove M ids ↔ m ∈ M ∧ m.syncedId ∉ ids := by
  unfold mapperRemove
  rw [List.mem_filter]
  simp

/-- C5: for every metadata, parent id, index and tree, `addBookmark` fails with
BookmarkNotFoundException when no bookmark with the parent id exists in the
tree, and when the parent exists it returns a result whose tree contains the
newly created bookmark inserted as a child of that parent at the given index. -/
theorem claim5_addBookmark_parent_lookup (meta : BookmarkMetadata)
    (parentId index : Nat) (bookmarks : List Bookmark) :
    (parentId ∉ allIdsList bookmarks →
      addBookmark meta parentId index bookmarks = .error .bookmarkNotFound) ∧
    (∀ parent, findBookmarkById parentId bookmarks = some parent →
      ∃ r, addBookmark meta parentId index bookmarks = .ok r ∧
        r.bookmark = newBookmark meta bookmarks ∧
        findBookmarkById parentId r.bookmarks =
          some (parent.setChildren (spliceIn index r.bookmark parent.children))) := by
  constructor
  · intro h
    exact addBookmark_none meta parentId index bookmarks
      ((findBookmarkById_eq_none parentId bookmarks).2 h)
  · intro parent hfind
    refine ⟨_, addBookmark_some meta parentId index bookmarks parent hfind, rfl, ?_⟩
    have hid : (parent.setChildren
        (spliceIn index (newBookmark meta bookmarks) parent.children)).id = parentId := by
      rw [Bookmark.setChildren_id]
      exact findBookmarkById_id parentId bookmarks parent hfind
    exact find_modifyFirstL parentId
      (fun p => p.setChildren (spliceIn index (newBookmark meta bookmarks) p.children))
      bookmarks parent hfind hid

/-- Witness for C5 at a concrete tree: parent id 7 is absent and the call
fails; parent id 1 exists and the new bookmark lands at index 1 of its
children. -/
theorem claim5_witness :
    (addBookmark exampleMetadata 7 0 exampleTree = .error .bookmarkNotFound) ∧
    (∃ r, addBookmark exampleMetadata 1 1 exampleTree = .ok r ∧
      r.bookmark = newBookmark exampleMetadata exampleTree ∧
      findBookmarkById 1 r.bookmarks =
        some ((Bookmark.node 1 otherContainerTitle none none
            [Bookmark.node 2 "kid" (some "http://kid") none []]).setChildren
          (spliceIn 1 r.bookmark [Bookmark.node 2 "kid" (some "http://kid") none []]))) :=
  ⟨(claim5_addBookmark_parent_lookup exampleMetadata 7 0 exampleTree).1 (by decide),
   (claim5_addBookmark_parent_lookup exampleMetadata 1 1 exampleTree).2
     (Bookmark.node 1 otherContainerTitle none none
       [Bookmark.node 2 "kid" (some "http://kid") none []]) (by decide)⟩

/-- C8: `addBookmark` never mutates the bookmarks array passed to it — with the
caller's array tracked through the call, its value is unchanged on both the
success and the failure path, the call's result is exactly the pure
`addBookmark` value, and on success the returned replacement tree is a genuinely
new tree holding one node more than the input. -/
theorem claim8_addBookmark_no_mutation (meta : BookmarkMetadata)
    (parentId index : Nat) (callerArray : List Bookmark) :
    (addBookmarkWithCallerArray meta parentId index callerArray).2 = callerArray ∧
    (addBookmarkWithCallerArray meta parentId index callerArray).1 =
      addBookmark meta parentId index callerArray ∧
    (∀ r, addBookmark meta parentId index callerArray = .ok r →
      countList r.bookmarks = countList callerArray + 1 ∧
      r.bookmarks ≠ callerArray) := by
  refine ⟨?_, ?_, ?_⟩
  · unfold addBookmarkWithCallerArray
    dsimp only
    split
    · rfl
    · rfl
  · unfold addBookmarkWithCallerArray addBookmark
    dsimp only
    split
    · rfl
    · rfl
  · intro r hr
    cases hfind : findBookmarkById parentId callerArray with
    | none =>
      rw [addBookmark_none meta parentId index callerArray hfind] at hr
      cases hr
    | some parent =>
      obtain ⟨-, hcount, -, -, -⟩ :=
        addBookmark_ok_spec meta parentId index callerArray parent r hfind hr
      refine ⟨hcount, ?_⟩
      intro he
      rw [he] at hcount
      omega

/-- Witness for C8 at a concrete tree, on the success path. -/
theorem claim8_witness :
    (addBookmarkWithCallerArray exampleMetadata 1 0 exampleTree).2 = exampleTree ∧
    (∀ r, addBookmark exampleMetadata 1 0 exampleTree = .ok r →
      countList r.bookmarks = countList exampleTree + 1 ∧ r.bookmarks ≠ exampleTree) :=
  ⟨(claim8_addBookmark_no_mutation exampleMetadata 1 0 exampleTree).1,
   (claim8_addBookmark_no_mutation exampleMetadata 1 0 exampleTree).2.2⟩

/-- C9: `createNativeBookmark` sends the original url to the host when the
platform supports it and the placeholder new-tab url (logging the substitution)
when it does not; whether the call fails is decided solely by the host's answer
to the create request, never by the unsupported url itself. -/
theorem claim9_create_url_substitution (env : Env) (parentId title url : String)
    (index : Option Nat) :
    ((createNativeBookmark env parentId title (some url) index).2.1.url =
      some (if env.urlIsSupported url then url else env.newTabUrl)) ∧
    ((createNativeBookmark env parentId title (some url) index).2.2 =
      !env.urlIsSupported url) ∧
    (∀ n, env.hostCreate (createNativeBookmark env parentId title (some url) index).2.1 =
        some n →
      (createNativeBookmark env parentId title (some url) index).1 = .ok n) ∧
    (env.hostCreate (createNativeBookmark env parentId title (some url) index).2.1 =
        none →
      (createNativeBookmark env parentId title (some url) index).1 =
        .error .failedCreateNativeBookmarks) := by
  unfold createNativeBookmark getSupportedUrl
  by_cases hs : env.urlIsSupported url = true
  · simp only [hs]
    cases hc : env.hostCreate ⟨index, parentId, title, some url⟩ with
    | some n => simp [hc]
    | none => simp [hc]
  · rw [Bool.not_eq_true] at hs
    simp only [hs]
    cases hc : env.hostCreate ⟨index, parentId, title, some env.newTabUrl⟩ with
    | some n => simp [hc]
    | none => simp [hc]

/-- Witness for C9: an unsupported url is replaced by the placeholder, the
substitution is logged, and the create still succeeds. -/
theorem claim9_witness :
    ((createNativeBookmark hostEnv "p1" "T" (some "bad://x") none).2.1.url =
      some "about:newtab") ∧
    ((createNativeBookmark hostEnv "p1" "T" (some "bad://x") none).2.2 = true) ∧
    ((createNativeBookmark hostEnv "p1" "T" (some "bad://x") none).1 =
      .ok (.node "new1" "p1" 0 "T" (some "about:newtab") [])) := by
  refine ⟨?_, ?_, ?_⟩
  · have h := (claim9_create_url_substitution hostEnv "p1" "T" "bad://x" none).1
    rw [h]
    decide
  · have h := (claim9_create_url_substitution hostEnv "p1" "T" "bad://x" none).2.1
    rw [h]
    decide
  · exact (claim9_create_url_substitution hostEnv "p1" "T" "bad://x" none).2.2.1
      (.node "new1" "p1" 0 "T" (some "about:newtab") []) (by decide)

/-- C10: `modifyNativeBookmark` sends the native host an update carrying only
the new title — the url field of the update is never populated, whatever url
the metadata holds. -/
theorem claim10_modify_sends_title_only (env : Env) (id : String)
    (md : BookmarkMetadata) :
    (modifyNativeBookmark env id md).2 = ⟨some md.title, none⟩ := by
  unfold modifyNativeBookmark
  dsimp only
  split <;> rfl

/-- C7 counterexample: a toolbar node carrying the vertical separator title but
a real url is not a separator (its url differs from the placeholder), so the
claim prescribes a remove-and-recreate; the source, whose skip test for the
in-toolbar case never looks at the url, performs no native write at all. -/
theorem claim7_counterexample :
    convertNativeBookmarkToSeparator c7env c7node = .noWrite ∧
    isNativeBookmarkInToolbarContainer c7env c7node = true ∧
    c7node.url ≠ some c7env.newTabUrl := by
  refine ⟨?_, by decide, by decide⟩
  decide

/-- C7 amended: conversion removes and recreates the node at the same parent
and index with the placeholder url and the orientation-appropriate title,
except that the two special cases are keyed on the title and the toolbar
membership alone: no write happens iff the node is out of the toolbar with the
horizontal title and the placeholder url, or in the toolbar with the vertical
title (url not checked); an in-place title update happens exactly when the node
carries the opposite-orientation title, again without any url check. -/
theorem claim7_amended_conversion_cases (env : Env) (b : NativeBookmarkNode) :
    (convertNativeBookmarkToSeparator env b = .noWrite ↔
      ((b.url = some env.newTabUrl ∧
          isNativeBookmarkInToolbarContainer env b = false ∧
          b.title = horizontalSeparatorTitle) ∨
        (isNativeBookmarkInToolbarContainer env b = true ∧
          b.title = verticalSeparatorTitle))) ∧
    (∀ i t2, convertNativeBookmarkToSeparator env b = .updateTitle i t2 →
      i = b.id ∧
      t2 = (if isNativeBookmarkInToolbarContainer env b then verticalSeparatorTitle
            else horizontalSeparatorTitle) ∧
      ((isNativeBookmarkInToolbarContainer env b = false ∧
          b.title = verticalSeparatorTitle) ∨
        (isNativeBookmarkInToolbarContainer env b = true ∧
          b.title = horizontalSeparatorTitle))) ∧
    (∀ i d, convertNativeBookmarkToSeparator env b = .removeAndCreate i d →
      i = b.id ∧ d.parentId = b.parentId ∧ d.index = some b.index ∧
      d.url = some env.newTabUrl ∧
      d.title = (if isNativeBookmarkInToolbarContainer env b then
                   verticalSeparatorTitle
                 else horizontalSeparatorTitle)) := by
  unfold convertNativeBookmarkToSeparator
  dsimp only
  split
  case isTrue h =>
    refine ⟨by simp [h], ?_, ?_⟩
    · intro i t2 hc
      cases hc
    · intro i d hc
      cases hc
  case isFalse h =>
    split
    case isTrue h2 =>
      refine ⟨by simp [h], ?_, ?_⟩
      · intro i t2 hc
        injection hc with hi ht
        exact ⟨hi.symm, ht.symm, h2⟩
      · intro i d hc
        cases hc
    case isFalse h2 =>
      refine ⟨by simp [h], ?_, ?_⟩
      · intro i t2 hc
        cases hc
      · intro i d hc
        injection hc with hi hd
        subst hd
        exact ⟨hi.symm, rfl, rfl, rfl, rfl⟩

/-- Witness for C7 at a concrete ordinary bookmark: the conversion removes and
recreates it at the same parent and index as a horizontal separator. -/
theorem claim7_witness :
    convertNativeBookmarkToSeparator c7env c7wnode =
      .removeAndCreate "n2" ⟨some 3, "pp", horizontalSeparatorTitle, some "about:newtab"⟩ ∧
    ("n2" = c7wnode.id ∧
      (⟨some 3, "pp", horizontalSeparatorTitle, some "about:newtab"⟩ :
        CreateDetails).parentId = c7wnode.parentId ∧
      (⟨some 3, "pp", horizontalSeparatorTitle, some "about:newtab"⟩ :
        CreateDetails).index = some c7wnode.index ∧
      (⟨some 3, "pp", horizontalSeparatorTitle, some "about:newtab"⟩ :
        CreateDetails).url = some c7env.newTabUrl ∧
      (⟨some 3, "pp", horizontalSeparatorTitle, some "about:newtab"⟩ :
        CreateDetails).title =
        (if isNativeBookmarkInToolbarContainer c7env c7wnode then
           verticalSeparatorTitle
         else horizontalSeparatorTitle)) :=
  ⟨by decide,
   (claim7_amended_conversion_cases c7env c7wnode).2.2 "n2"
     ⟨some 3, "pp", horizontalSeparatorTitle, some "about:newtab"⟩ (by decide)⟩

/-- C6: when the moved native node is itself a reserved container,
`processChangeTypeMoveOnBookmarks` throws ContainerChangedException if the old
parent differs from the new parent, and a same-parent reposition completes
without canonical mutation or mapping change. -/
theorem claim6_move_of_container (env : Env) (bookmarks : List Bookmark)
    (cd : MoveNativeBookmarkChangeData) (mb : NativeBookmarkNode)
    (hget : env.nativeGet cd.id = some mb)
    (hcont : nativeBookmarkIsContainer mb = true) :
    (cd.oldParentId ≠ cd.parentId →
      processChangeTypeMoveOnBookmarks env bookmarks cd = .error .containerChanged) ∧
    (cd.oldParentId = cd.parentId →
      processChangeTypeMoveOnBookmarks env bookmarks cd = .ok (none, env.mappings)) := by
  unfold processChangeTypeMoveOnBookmarks
  rw [hget]
  dsimp only
  constructor
  · intro h
    simp [hcont, h]
  · intro h
    simp [hcont, h]

/-- Witness for C6: moving the native toolbar root within its parent is
ignored; moving it into another folder is fatal. -/
theorem claim6_witness :
    processChangeTypeMoveOnBookmarks c6env [] c6moveSameParent =
      .ok (none, c6env.mappings) ∧
    processChangeTypeMoveOnBookmarks c6env [] c6moveNewParent =
      .error .containerChanged :=
  ⟨(claim6_move_of_container c6env [] c6moveSameParent
      (NativeBookmarkNode.node "tb" "root0" 0 toolbarContainerTitle none [])
      (by decide) (by decide)).2 (by decide),
   (claim6_move_of_container c6env [] c6moveNewParent
      (NativeBookmarkNode.node "tb" "root0" 0 toolbarContainerTitle none [])
      (by decide) (by decide)).1 (by decide)⟩

/-- C3 counterexample: in the queue-drain tail of the WebExt service the
re-enable of listeners is chained with `then`, not `finally`; when the
container reordering pass fails the trace holds no enable event at all and the
listeners are left off, even though sync stayed enabled — the claimed
guaranteed cleanup does not run on this failure path. -/
theorem claim3_counterexample :
    postSyncReorderListenerTrace true = [LEvent.disable] ∧
    LEvent.enable ∉ postSyncReorderListenerTrace true ∧
    runListeners true (postSyncReorderListenerTrace true) = false := by decide

/-- C3 amended: on the remote-change replay path (background syncBookmarks) the
cleanup runs on every exit path and leaves the listener state equal to the
persisted sync-enabled flag, as claimed.  The separator conversion of the
WebExt service does run its re-enable in a finally on every exit path, but the
re-enable is the unconditional `enableEventListeners` — the listeners always end
up on, whatever the persisted flag says; the background separator conversion
likewise re-enables unconditionally via toggleEventListeners(true).  For the
post-sync container reordering the re-enable runs only when the reordering
succeeds. -/
theorem claim3_amended_listener_cleanup :
    (∀ env b wf, (convertSeparatorListenerTrace env b wf).1 = [] ∨
      ((convertSeparatorListenerTrace env b wf).1 = [LEvent.disable, LEvent.enable] ∧
        ∀ st, runListeners st (convertSeparatorListenerTrace env b wf).1 = true)) ∧
    (∀ rf, LEvent.enable ∈ postSyncReorderListenerTrace rf ↔ rf = false) ∧
    (∀ affectsLocal syncFails flag st,
      runListeners st (syncBookmarksListenerTrace affectsLocal syncFails flag) = flag) ∧
    (∀ flag wf st,
      runListeners st (convertLocalSeparatorListenerTrace flag wf) = true) := by
  refine ⟨?_, ?_, ?_, ?_⟩
  · intro env b wf
    unfold convertSeparatorListenerTrace
    cases convertNativeBookmarkToSeparator env b with
    | noWrite => exact Or.inl rfl
    | updateTitle i t => exact Or.inr ⟨rfl, fun st => rfl⟩
    | removeAndCreate i d => exact Or.inr ⟨rfl, fun st => rfl⟩
  · intro rf
    cases rf <;> simp [postSyncReorderListenerTrace]
  · intro a sf flag st
    cases a <;> cases sf <;> cases flag <;>
      simp [syncBookmarksListenerTrace, toggleEventListenersEvent, runListeners]
  · intro flag wf st
    cases flag <;> cases wf <;>
      simp [convertLocalSeparatorListenerTrace, toggleEventListenersEvent, runListeners]

theorem resolveReorderParent_find (env : Env) (bookmarks : List Bookmark)
    (parentId : String) (p : Bookmark)
    (hp : resolveReorderParent env bookmarks parentId = .ok p)
    (hnd : (allIdsList bookmarks).Nodup) :
    findBookmarkById p.id bookmarks = some p := by
  unfold resolveReorderParent at hp
  cases hk : containerNameFromIdsKeys env parentId with
  | some containerName =>
    simp only [hk] at hp
    cases hg : getContainer containerName bookmarks with
    | some q =>
      simp only [hg] at hp
      injection hp with hp
      subst hp
      exact findBookmarkById_of_mem_nodup q bookmarks hnd
        (List.mem_of_find?_eq_some hg)
    | none =>
      simp only [hg] at hp
      cases hp
  | none =>
    simp only [hk] at hp
    cases hm : mapperGetByNativeId env.mappings parentId with
    | none =>
      simp only [hm] at hp
      cases hp
    | some m =>
      simp only [hm] at hp
      cases hf : findBookmarkById m.syncedId bookmarks with
      | some q =>
        simp only [hf] at hp
        injection hp with hp
        subst hp
        rw [findBookmarkById_id m.syncedId bookmarks q hf]
        exact hf
      | none =>
        simp only [hf] at hp
        cases hp

/-- C1 counterexample: ChildrenReordered on the toolbar root with native order
[A,B,C] where only B is mapped: the stored child array is [B] (no holes, since
the single mapped id resolves), and the canonical children A (id 1) and C
(id 3), existing children of the resolved parent, are both dropped from the
resulting tree instead of keeping their canonical positions. -/
theorem claim1_counterexample :
    processChangeTypeChildrenReorderedOnBookmarks c1env c1tree
      ["nA", "nB", "nC"] "tb" =
      .ok (c1result, [some (Bookmark.node 2 "B" (some "http://b") none [])]) ∧
    (1 ∈ allIdsList c1tree ∧ 1 ∉ allIdsList c1result) ∧
    (3 ∈ allIdsList c1tree ∧ 3 ∉ allIdsList c1result) := by
  decide

/-- C1 amended: when the parent of a ChildrenReordered change resolves (to a
container or through an existing mapping) in a tree with unique ids, the
handler overwrites the parent's child array with the length-preserving map of
the mapped native child-id sequence through child lookup: slot i holds the
existing child carrying the i-th mapped synced id, or an undefined hole when
no child carries that id; every filled slot is an existing child whose id is
mapped from the native sequence, and every unmapped child is dropped from the
parent's child array rather than retaining its canonical position. -/
theorem claim1_amended_children_reordered (env : Env) (bookmarks : List Bookmark)
    (childIds : List String) (parentId : String) (p : Bookmark)
    (hp : resolveReorderParent env bookmarks parentId = .ok p)
    (hnd : (allIdsList bookmarks).Nodup) :
    processChangeTypeChildrenReorderedOnBookmarks env bookmarks childIds parentId =
      .ok ((modifyFirstL p.id
        (fun b => b.setChildren (reorderedChildSlots env childIds p).reduceOption)
        bookmarks).1,
        reorderedChildSlots env childIds p) ∧
    (reorderedChildSlots env childIds p).length =
      (reorderedChildIds env childIds).length ∧
    findBookmarkById p.id
        ((modifyFirstL p.id
          (fun b => b.setChildren (reorderedChildSlots env childIds p).reduceOption)
          bookmarks).1) =
      some (p.setChildren (reorderedChildSlots env childIds p).reduceOption) ∧
    (∀ c, some c ∈ reorderedChildSlots env childIds p →
      c ∈ p.children ∧ c.id ∈ reorderedChildIds env childIds) ∧
    (none ∈ reorderedChildSlots env childIds p ↔
      ∃ cid ∈ reorderedChildIds env childIds, ∀ c ∈ p.children, c.id ≠ cid) ∧
    (∀ c ∈ p.children, c.id ∉ reorderedChildIds env childIds →
      ∀ c2, some c2 ∈ reorderedChildSlots env childIds p → c2.id ≠ c.id) := by
  have hmem : ∀ c, some c ∈ reorderedChildSlots env childIds p →
      c ∈ p.children ∧ c.id ∈ reorderedChildIds env childIds := by
    intro c hc
    unfold reorderedChildSlots at hc
    obtain ⟨cid, hcid, hfind⟩ := List.mem_map.1 hc
    have h1 := List.find?_some hfind
    simp only [decide_eq_true_eq] at h1
    exact ⟨List.mem_of_find?_eq_some hfind, h1 ▸ hcid⟩
  refine ⟨?_, ?_, ?_, hmem, ?_, ?_⟩
  · unfold processChangeTypeChildrenReorderedOnBookmarks
    rw [hp]
  · unfold reorderedChildSlots
    rw [List.length_map]
  · have hpfind := resolveReorderParent_find env bookmarks parentId p hp hnd
    exact find_modifyFirstL p.id
      (fun b => b.setChildren (reorderedChildSlots env childIds p).reduceOption)
      bookmarks p hpfind (by rw [Bookmark.setChildren_id])
  · unfold reorderedChildSlots
    constructor
    · intro h
      obtain ⟨cid, hcid, hfind⟩ := List.mem_map.1 h
      refine ⟨cid, hcid, ?_⟩
      intro c hc he
      have := List.find?_eq_none.1 hfind c hc
      simp [he] at this
    · rintro ⟨cid, hcid, hall⟩
      refine List.mem_map.2 ⟨cid, hcid, ?_⟩
      rw [List.find?_eq_none]
      intro c hc
      simp only [decide_eq_true_eq]
      exact hall c hc
  · intro c hc hnm c2 hc2 he
    exact hnm (he ▸ (hmem c2 hc2).2)

/-- Witness for C1 amended at the toolbar scenario with native order [A,B,X]
where B is mapped to child 2 and X is mapped to the synced id 99, which is no
child of the toolbar: the stored array is [some B, hole], the hole being
witnessed by the mapped id 99, and the tree reading keeps exactly B. -/
theorem claim1_witness :
    findBookmarkById c1parent.id
      ((modifyFirstL c1parent.id
        (fun b => b.setChildren
          (reorderedChildSlots c1env ["nA", "nB", "nX"] c1parent).reduceOption)
        c1tree).1) =
      some (c1parent.setChildren
        (reorderedChildSlots c1env ["nA", "nB", "nX"] c1parent).reduceOption) ∧
    (none ∈ reorderedChildSlots c1env ["nA", "nB", "nX"] c1parent ↔
      ∃ cid ∈ reorderedChildIds c1env ["nA", "nB", "nX"],
        ∀ c ∈ c1parent.children, c.id ≠ cid) ∧
    reorderedChildSlots c1env ["nA", "nB", "nX"] c1parent =
      [some (Bookmark.node 2 "B" (some "http://b") none []), none] :=
  ⟨(claim1_amended_children_reordered c1env c1tree ["nA", "nB", "nX"] "tb" c1parent
      (by decide) (by decide)).2.2.1,
   (claim1_amended_children_reordered c1env c1tree ["nA", "nB", "nX"] "tb" c1parent
      (by decide) (by decide)).2.2.2.2.1,
   by decide⟩

@[simp] theorem wasContainerChanged_withToolbarFlag (env : Env) (fl : Bool)
    (nb : NativeBookmarkNode) :
    wasContainerChanged (env.withToolbarFlag fl) nb = wasContainerChanged env nb := rfl

@[simp] theorem resolveAddParent_withToolbarFlag (env : Env) (fl : Bool)
    (bookmarks : List Bookmark) (pid : String) :
    resolveAddParent (env.withToolbarFlag fl) bookmarks pid =
      resolveAddParent env bookmarks pid := rfl

@[simp] theorem mappings_withToolbarFlag (env : Env) (fl : Bool) :
    (env.withToolbarFlag fl).mappings = env.mappings := rfl

@[simp] theorem syncToolbar_withToolbarFlag (env : Env) (fl : Bool) :
    (env.withToolbarFlag fl).syncBookmarksToolbar = fl := rfl

/-- C4: for an Add change whose parent resolves and whose bookmark sits in the
toolbar container of the post-change tree, the pass with toolbar sync off
yields no canonical mutation and leaves the mapping table alone, while the
identical change with toolbar sync on yields exactly one canonical mutation
(one node added, nothing dropped, the fresh id new to the tree) and exactly one
new mapping entry; the sync-worthiness check is evaluated on the bookmark's
location in the tree after the change was applied. -/
theorem claim4_toolbar_preference (env : Env) (bookmarks : List Bookmark)
    (nb : NativeBookmarkNode) (pid : Nat) (bs1 : List Bookmark)
    (parent : Bookmark) (r : UpdateBookmarksResult) (cont : Bookmark)
    (hwcc : wasContainerChanged env nb = false)
    (hres : resolveAddParent env bookmarks nb.parentId = (some pid, bs1))
    (hpid : pid ≠ 0)
    (hfind : findBookmarkById pid bs1 = some parent)
    (hadd : addBookmark (extractNativeMetadata nb) pid nb.index bs1 = .ok r)
    (hcont : getContainerByBookmarkId r.bookmark.id r.bookmarks = some cont)
    (htitle : cont.title = toolbarContainerTitle) :
    processChangeTypeAddOnBookmarks (env.withToolbarFlag false) bookmarks nb =
      .ok (none, env.mappings) ∧
    processChangeTypeAddOnBookmarks (env.withToolbarFlag true) bookmarks nb =
      .ok (some r.bookmarks, env.mappings ++ [⟨r.bookmark.id, nb.id⟩]) ∧
    countList r.bookmarks = countList bs1 + 1 ∧
    (∀ j, j ∈ allIdsList bs1 → j ∈ allIdsList r.bookmarks) ∧
    r.bookmark.id ∈ allIdsList r.bookmarks ∧
    r.bookmark.id ∉ allIdsList bs1 := by
  have hchk : ∀ fl : Bool,
      checkIfBookmarkChangeShouldBeSynced (env.withToolbarFlag fl)
        r.bookmark r.bookmarks = .ok fl := by
    intro fl
    unfold checkIfBookmarkChangeShouldBeSynced
    simp only [hcont]
    cases fl with
    | false =>
      rw [if_pos ⟨htitle, by simp⟩]
    | true =>
      rw [if_neg ?_]
      rintro ⟨-, hflag⟩
      exact hflag (by simp)
  have hmain : ∀ fl : Bool,
      processChangeTypeAddOnBookmarks (env.withToolbarFlag fl) bookmarks nb =
        (if fl then .ok (some r.bookmarks, env.mappings ++ [⟨r.bookmark.id, nb.id⟩])
         else .ok (none, env.mappings)) := by
    intro fl
    unfold processChangeTypeAddOnBookmarks
    rw [wasContainerChanged_withToolbarFlag, hwcc]
    rw [if_neg (by simp)]
    rw [resolveAddParent_withToolbarFlag, hres]
    dsimp only
    rw [if_neg hpid]
    rw [hadd]
    dsimp only
    rw [hchk fl]
    cases fl with
    | false => simp
    | true => simp
  obtain ⟨hbk, hcount, hsub, hmem, hnotmem⟩ :=
    addBookmark_ok_spec (extractNativeMetadata nb) pid nb.index bs1 parent r hfind hadd
  exact ⟨hmain false, by rw [hmain true]; simp, hcount, hsub, hmem, hnotmem⟩

/-- Witness for C4: the identical toolbar Add with the preference off produces
no canonical change and no mapping entry; with the preference on it produces
the single-node insertion and exactly one mapping entry. -/
theorem claim4_witness :
    processChangeTypeAddOnBookmarks (c4env.withToolbarFlag false) c4tree c4native =
      .ok (none, c4env.mappings) ∧
    processChangeTypeAddOnBookmarks (c4env.withToolbarFlag true) c4tree c4native =
      .ok (some c4resultTree, c4env.mappings ++ [⟨3, "n9"⟩]) ∧
    countList c4resultTree = countList c4tree + 1 := by
  have h := claim4_toolbar_preference c4env c4tree c4native 1 c4tree
    (Bookmark.node 1 toolbarContainerTitle none none [])
    ⟨c4newBookmark, c4resultTree⟩
    (Bookmark.node 1 toolbarContainerTitle none none [c4newBookmark])
    (by decide) (by decide) (by decide) (by decide) (by decide) (by decide)
    (by decide)
  exact ⟨h.1, h.2.1, h.2.2.1⟩

theorem getIdsFromDescendants_eq (b : Bookmark) :
    getIdsFromDescendants b = allIdsList b.children := by
  unfold getIdsFromDescendants
  by_cases h : b.children.isEmpty
  · rw [if_pos h]
    rw [List.isEmpty_iff] at h
    rw [h]
    rfl
  · rw [if_neg h]

theorem allTreeIds_nodup_of_find (id : Nat) (bs : List Bookmark) (b : Bookmark)
    (hf : findBookmarkById id bs = some b) (hnd : (allIdsList bs).Nodup) :
    (allTreeIds b).Nodup := by
  obtain ⟨pre, post, h1, -, -⟩ := modifyFirstL_decomp id (fun x => x) bs b hf
  rw [h1] at hnd
  have hsub : List.Sublist (allTreeIds b) (pre ++ (allTreeIds b ++ post)) :=
    (List.sublist_append_left (allTreeIds b) post).trans
      (List.sublist_append_right pre (allTreeIds b ++ post))
  exact hnd.sublist hsub

/-- C2: removing a mapped folder that passes the sync-worthiness check removes
exactly the one subtree rooted at its canonical id from the tree — the root id
is gone, no id outside the removed subtree is lost, nothing new appears — and
deletes exactly N + 1 entries from the id-mapping table, the root's mapping
plus one per mapped descendant, where N counts the mapped descendants. -/
theorem claim2_remove_subtree (env : Env) (bookmarks : List Bookmark)
    (nb : NativeBookmarkNode) (m : IdMapping) (b : Bookmark)
    (hwcc : wasContainerChanged env nb = false)
    (hmap : mapperGetByNativeId env.mappings nb.id = some m)
    (hfind : findBookmarkById m.syncedId bookmarks = some b)
    (hsync : checkIfBookmarkChangeShouldBeSynced env b bookmarks = .ok true)
    (hndT : (allIdsList bookmarks).Nodup)
    (hndM : (env.mappings.map IdMapping.syncedId).Nodup) :
    processChangeTypeRemoveOnBookmarks env bookmarks nb =
      .ok (some (removeBookmarkById m.syncedId bookmarks),
        mapperRemove env.mappings (getIdsFromDescendants b ++ [m.syncedId])) ∧
    (mapperRemove env.mappings (getIdsFromDescendants b ++ [m.syncedId])).length +
        ((getIdsFromDescendants b).countP (fun i => isMapped env.mappings i) + 1) =
      env.mappings.length ∧
    (∀ x ∈ env.mappings,
      (x ∈ mapperRemove env.mappings (getIdsFromDescendants b ++ [m.syncedId]) ↔
        ¬ (x.syncedId ∈ getIdsFromDescendants b ∨ x.syncedId = m.syncedId))) ∧
    allTreeIds b = m.syncedId :: getIdsFromDescendants b ∧
    idsUnderL m.syncedId bookmarks = allTreeIds b ∧
    m.syncedId ∉ allIdsList (removeBookmarkById m.syncedId bookmarks) ∧
    (∀ j ∈ allIdsList (removeBookmarkById m.syncedId bookmarks),
      j ∈ allIdsList bookmarks) ∧
    (∀ j ∈ allIdsList bookmarks, j ∉ allTreeIds b →
      j ∈ allIdsList (removeBookmarkById m.syncedId bookmarks)) := by
  have hDids : getIdsFromDescendants b = allIdsList b.children :=
    getIdsFromDescendants_eq b
  have hbid : b.id = m.syncedId := findBookmarkById_id m.syncedId bookmarks b hfind
  have hTree : allTreeIds b = m.syncedId :: getIdsFromDescendants b := by
    rw [allTreeIds_eq_cons, hbid, hDids]
  have hndB : (allTreeIds b).Nodup :=
    allTreeIds_nodup_of_find m.syncedId bookmarks b hfind hndT
  rw [hTree, List.nodup_cons] at hndB
  have hroot : m.syncedId ∉ getIdsFromDescendants b := hndB.1
  have hDnd : (getIdsFromDescendants b).Nodup := hndB.2
  refine ⟨?_, ?_, ?_, hTree, ?_, ?_, ?_, ?_⟩
  · unfold processChangeTypeRemoveOnBookmarks
    rw [hwcc]
    rw [if_neg (by simp)]
    simp only [hmap, hfind, hsync]
  · have hlen := mapperRemove_length env.mappings
      (getIdsFromDescendants b ++ [m.syncedId])
    have hsplit : env.mappings.countP
        (fun x => decide (x.syncedId ∈ getIdsFromDescendants b ++ [m.syncedId])) =
        env.mappings.countP (fun x => decide (x.syncedId ∈ getIdsFromDescendants b)) +
        env.mappings.countP (fun x => decide (x.syncedId = m.syncedId)) := by
      rw [← countP_or_disjoint env.mappings
        (fun x => decide (x.syncedId ∈ getIdsFromDescendants b))
        (fun x => decide (x.syncedId = m.syncedId)) ?_]
      · apply List.countP_congr
        intro x hx
        simp [List.mem_append]
      · rintro x hx ⟨h1, h2⟩
        simp only [decide_eq_true_eq] at h1 h2
        exact hroot (h2 ▸ h1)
    have hD := countP_mem_eq_count_mapped env.mappings (getIdsFromDescendants b)
      hDnd hndM
    have hone := countP_syncedId_self env.mappings m hndM
      (List.mem_of_find?_eq_some hmap)
    rw [hsplit, hD, hone] at hlen
    omega
  · intro x hx
    rw [mem_mapperRemove]
    simp [hx, List.mem_append]
  · exact idsUnderL_of_find m.syncedId bookmarks b hndT hfind
  · exact removeBookmarkById_not_mem m.syncedId bookmarks
  · intro j hj
    exact removeBookmarkById_subset m.syncedId bookmarks j hj
  · intro j hj hout
    refine removeBookmarkById_keeps m.syncedId bookmarks j hj ?_
    rw [idsUnderL_of_find m.syncedId bookmarks b hndT hfind]
    exact hout

/-- Witness for C2: removing folder 5 (mapped, descendants 6 mapped and 7
unmapped) deletes exactly 2 = N + 1 mapping entries, leaves mapping 9 alone,
and removes exactly the subtree 5-6-7 from the tree. -/
theorem claim2_witness :
    processChangeTypeRemoveOnBookmarks c2env c2tree c2native =
      .ok (some (removeBookmarkById 5 c2tree),
        mapperRemove c2env.mappings (getIdsFromDescendants c2folder ++ [5])) ∧
    (mapperRemove c2env.mappings (getIdsFromDescendants c2folder ++ [5])).length +
        ((getIdsFromDescendants c2folder).countP
          (fun i => isMapped c2env.mappings i) + 1) =
      c2env.mappings.length ∧
    mapperRemove c2env.mappings (getIdsFromDescendants c2folder ++ [5]) =
      [⟨9, "n9"⟩] ∧
    removeBookmarkById 5 c2tree =
      [Bookmark.node 20 otherContainerTitle none none [],
       Bookmark.node 9 toolbarContainerTitle none none []] := by
  have h := claim2_remove_subtree c2env c2tree c2native ⟨5, "n5"⟩ c2folder
    (by decide) (by decide) (by decide) (by decide) (by decide) (by decide)
  exact ⟨h.1, h.2.1, by decide, by decide⟩
